import Mathlib

/-!
Verification of the Seamless novel-conversion pipeline.

Shallow embedding of the core pipeline translated from the TypeScript
sources:

* src/libs/novel/patternMatcher.ts  (`NovelPatternMatcher`)
* src/libs/novel/textProcessor.ts   (`TextProcessor`)
* src/libs/novel/converter.ts       (`convertBlocksToNovel`)
* src/libs/novel/pdf.ts             (`encodeRGBAtoPNG` and the per-page
  image-collection loop of `parsePdfToBlocks`)

Modelling conventions, used throughout and noted at the individual
definitions:

* JavaScript strings are modelled as Lean `String` / `List Char`.  All the
  characters the code manipulates are in the Basic Multilingual Plane, where
  one UTF-16 code unit corresponds to one `Char`; `jsLen` still counts UTF-16
  code units (astral chars count 2) so that `.length` comparisons are exact.
* The regular expressions of the source are hand-translated to character-list
  scanners.  Each translation carries a comment with the original regex.
  `\s` (no `u` flag needed: the sets coincide) is the ECMAScript whitespace
  set `isJsWs`; `String.prototype.trim` removes exactly that set, so the same
  predicate is used for `trim`.
* `nanoid()` produces opaque process-unique ids; it is modelled by a
  deterministic counter supply (`"b" ++ n`).  No claim depends on id values.
* Fallible JS operations (`Buffer.alloc` of a negative size,
  `writeUInt32BE` out of range) are modelled with `Except`.
* Recursions that are loops with a cursor in the source take an explicit
  fuel argument, always called with fuel ≥ the number of loop steps (each
  step consumes at least one element); exhausted fuel returns the current
  value unchanged.
-/

namespace Seamless

/-! ### JavaScript string primitives -/

/-- ECMAScript `\s` (WhiteSpace ∪ LineTerminator): TAB VT FF SP NBSP ZWNBSP,
USP, LF CR LS PS.  This is also exactly the set removed by
`String.prototype.trim`. -/
def isJsWs (c : Char) : Bool :=
  c.toNat == 9 || c.toNat == 10 || c.toNat == 11 || c.toNat == 12 ||
  c.toNat == 13 || c.toNat == 32 || c.toNat == 0xA0 || c.toNat == 0x1680 ||
  (0x2000 ≤ c.toNat && c.toNat ≤ 0x200A) || c.toNat == 0x2028 ||
  c.toNat == 0x2029 || c.toNat == 0x202F || c.toNat == 0x205F ||
  c.toNat == 0x3000 || c.toNat == 0xFEFF

/-- Characters not matched by `.` in a non-`s` ECMAScript regex
(LineTerminator). -/
def isRegexNl (c : Char) : Bool :=
  c.toNat == 10 || c.toNat == 13 || c.toNat == 0x2028 || c.toNat == 0x2029

/-- `String.prototype.trim` on a character list (`List.rdropWhile` drops
the trailing run). -/
def trimL (l : List Char) : List Char :=
  (l.dropWhile isJsWs).rdropWhile isJsWs

/-- `String.prototype.trim`. -/
def jsTrim (s : String) : String := ⟨trimL s.data⟩

/-- `String.prototype.trimStart`. -/
def jsTrimStart (s : String) : String := ⟨s.data.dropWhile isJsWs⟩

/-- JS `.length`: number of UTF-16 code units. -/
def jsLenL (l : List Char) : Nat :=
  l.foldl (fun n c => n + (if c.toNat < 0x10000 then 1 else 2)) 0

/-- JS `.length` of a string. -/
def jsLen (s : String) : Nat := jsLenL s.data

/-- `text.split("\n")` on character lists. -/
def splitNlL : List Char → List (List Char)
  | [] => [[]]
  | c :: cs =>
    let r := splitNlL cs
    if c = '\n' then [] :: r else (c :: r.headD []) :: r.tail

/-- ECMAScript `\w` = `[A-Za-z0-9_]` (used for `\b` word boundaries). -/
def isWordChar (c : Char) : Bool :=
  ('a' ≤ c && c ≤ 'z') || ('A' ≤ c && c ≤ 'Z') || ('0' ≤ c && c ≤ '9') || c == '_'

/-- `\b` between an (optional) previous character and an (optional) next
character: exactly one side is a word character. -/
def wordBoundary (prev next : Option Char) : Bool :=
  (prev.elim false isWordChar) != (next.elim false isWordChar)

/-- Case folding used by the `i` regex flag for the characters occurring in
the pattern tables (ASCII letters and `é`/`É`); all other characters fold to
themselves, matching non-`u` ECMAScript canonicalisation on this alphabet. -/
def lcChar (c : Char) : Char :=
  if 65 ≤ c.toNat && c.toNat ≤ 90 then Char.ofNat (c.toNat + 32)
  else if c.toNat == 0xC9 then 'é' else c

/-- Case-insensitive literal match at the head; returns
`(matched slice, rest)`.  The matched slice keeps the subject's original
characters (regex capture groups capture subject text, not pattern text). -/
def takeKw : List Char → List Char → Option (List Char × List Char)
  | [], l => some ([], l)
  | _ :: _, [] => none
  | k :: ks, c :: cs =>
    if lcChar c = lcChar k then
      (takeKw ks cs).map (fun (m, r) => (c :: m, r))
    else none

/-- Digits-prefix to a number, as JS `Number` on a `\d+` capture. -/
def digitsToNat (ds : List Char) : Nat :=
  ds.foldl (fun n c => n * 10 + (c.toNat - 48)) 0

/-! ### NovelPatternMatcher (src/libs/novel/patternMatcher.ts) -/

/-- `LanguageCode` from types.ts. -/
inductive Lang where
  | fr | en | ja
deriving DecidableEq, BEq, Repr

/-- Result of `detectChapter`. -/
structure ChapterMatch where
  number : Option Nat
  title : String
deriving DecidableEq, Repr

/-- Result of `detectSection`. -/
structure SectionMatch where
  title : String
deriving DecidableEq, Repr

namespace NovelPatternMatcher

/-- The `[:\-–]` separator class of the chapter/section patterns. -/
def isSepChar (c : Char) : Bool := c == ':' || c == '-' || c == '–'

/-- The `\s*[:\-–]?\s*(.*)$` tail shared by the chapter/section patterns:
skips whitespace, an optional separator, more whitespace, and captures the
rest, which `.` forbids to contain line terminators.  Returns the capture. -/
def sepTitleTail (l : List Char) : Option (List Char) :=
  let r := l.dropWhile isJsWs
  let r := match r with
    | c :: cs => if isSepChar c then cs else c :: cs
    | [] => []
  let r := r.dropWhile isJsWs
  if r.any isRegexNl then none else some r

/-- `^KW\s*(\d+)\s*$` (flag `i`): returns the digit capture. -/
def matchKwNumEnd (kw : String) (l : List Char) : Option (List Char) := do
  let (_, r) ← takeKw kw.data l
  let r := r.dropWhile isJsWs
  let ds := r.takeWhile Char.isDigit
  if ds.isEmpty then none else
  let r := (r.dropWhile Char.isDigit).dropWhile isJsWs
  if r.isEmpty then some ds else none

/-- `^KW\s*(\d+)\s*[:\-–]?\s*(.*)$` (flag `i`): returns `(digits, title)`. -/
def matchKwNumTitle (kw : String) (l : List Char) : Option (List Char × List Char) := do
  let (_, r) ← takeKw kw.data l
  let r := r.dropWhile isJsWs
  let ds := r.takeWhile Char.isDigit
  if ds.isEmpty then none else
  let r := r.dropWhile Char.isDigit
  let t ← sepTitleTail r
  some (ds, t)

/-- `^第(\d+)章\s*[:\-–]?\s*(.*)$` (ja pattern 1). -/
def matchJaDai (l : List Char) : Option (List Char × List Char) := do
  let r ← match l with
    | c :: cs => if c = '第' then some cs else none
    | [] => none
  let ds := r.takeWhile Char.isDigit
  if ds.isEmpty then none else
  let r ← match r.dropWhile Char.isDigit with
    | c :: cs => if c = '章' then some cs else none
    | [] => none
  let t ← sepTitleTail r
  some (ds, t)

/-- `^(\d+)章\s*[:\-–]?\s*(.*)$` (ja pattern 2). -/
def matchJaSho (l : List Char) : Option (List Char × List Char) := do
  let ds := l.takeWhile Char.isDigit
  if ds.isEmpty then none else
  let r ← match l.dropWhile Char.isDigit with
    | c :: cs => if c = '章' then some cs else none
    | [] => none
  let t ← sepTitleTail r
  some (ds, t)

/-- Builds the `detectChapter` result from a digits capture and an optional
title capture: `rawNum` is all digits so `number` is always assigned;
`title = (match[2] ?? "").trim()`. -/
def mkChapterMatch (ds : List Char) (t : Option (List Char)) : ChapterMatch :=
  { number := some (digitsToNat ds), title := ⟨trimL (t.getD [])⟩ }

/-- `detectChapter`: tries each chapter pattern of the language in order on
the trimmed line; returns `none` on a blank line or when no pattern
matches. -/
def detectChapter (lang : Lang) (line : String) : Option ChapterMatch :=
  let t := trimL line.data
  if t.isEmpty then none else
  match lang with
  | .fr =>
    match matchKwNumEnd "chapitre" t with
    | some ds => some (mkChapterMatch ds none)
    | none =>
      match matchKwNumTitle "chapitre" t with
      | some (ds, ti) => some (mkChapterMatch ds (some ti))
      | none =>
        match matchKwNumTitle "partie" t with
        | some (ds, ti) => some (mkChapterMatch ds (some ti))
        | none => none
  | .en =>
    match matchKwNumEnd "chapter" t with
    | some ds => some (mkChapterMatch ds none)
    | none =>
      match matchKwNumTitle "chapter" t with
      | some (ds, ti) => some (mkChapterMatch ds (some ti))
      | none =>
        match matchKwNumTitle "part" t with
        | some (ds, ti) => some (mkChapterMatch ds (some ti))
        | none => none
  | .ja =>
    match matchJaDai t with
    | some (ds, ti) => some (mkChapterMatch ds (some ti))
    | none =>
      match matchJaSho t with
      | some (ds, ti) => some (mkChapterMatch ds (some ti))
      | none => none

/-- `looksLikeOpeningContent`: starts with an opening quote
(`/^["“‘«「『]/`) or ends with a comma. -/
def looksLikeOpeningContent (line : String) : Bool :=
  let t := trimL line.data
  (match t with
   | c :: _ => c == '"' || c == '“' || c == '‘' || c == '«' || c == '「' || c == '『'
   | [] => false) ||
  (match t.getLast? with
   | some c => c == ','
   | none => false)

/-- `[A-Za-zÀ-ÖØ-öø-ÿ]`, the letter class of the uppercase-ratio
heuristics. -/
def isHeurLetter (c : Char) : Bool :=
  ('A' ≤ c && c ≤ 'Z') || ('a' ≤ c && c ≤ 'z') ||
  (0xC0 ≤ c.toNat && c.toNat ≤ 0xD6) || (0xD8 ≤ c.toNat && c.toNat ≤ 0xF6) ||
  (0xF8 ≤ c.toNat && c.toNat ≤ 0xFF)

/-- `[A-ZÀ-Ö]`, the uppercase class of the same heuristics. -/
def isHeurUpper (c : Char) : Bool :=
  ('A' ≤ c && c ≤ 'Z') || (0xC0 ≤ c.toNat && c.toNat ≤ 0xD6)

/-- `upperRatio > 0.7` for code-unit counts `u`, `l`: the float division and
literal are both correctly rounded, and for the bounded counts involved
`u / l > 0.7` in doubles iff `10 * u > 7 * l` over the integers. -/
def ratioGt7 (u l : Nat) : Bool := 10 * u > 7 * l

/-- `upperRatio > 0.6`, as `ratioGt7`. -/
def ratioGt6 (u l : Nat) : Bool := 10 * u > 6 * l

/-- `/[.!?]$/.test(t)`. -/
def endsSentencePunct (t : List Char) : Bool :=
  match t.getLast? with
  | some c => c == '.' || c == '!' || c == '?'
  | none => false

/-- An optional single-character regex item (`X?`): consume the head
character when it satisfies `cond`.  Greedy matching needs no backtracking
at the uses below, the option sets being disjoint from the follow sets. -/
def optDrop1 (cond : Char → Bool) : List Char → List Char
  | [] => []
  | c :: cs => if cond c then cs else c :: cs

/-- One sequential alternative of the English foreword phrase
`author[’']?s?\s+foreword`: after `author`, an optional quote, an optional
`s`, then `\s+` and `foreword`. -/
def forewordTail (l : List Char) : Option (List Char) :=
  let r := optDrop1 (fun c => c = '’' || c = '\'') l
  let r := optDrop1 (fun c => lcChar c = 's') r
  let w := r.takeWhile isJsWs
  if w.isEmpty then none else
  (takeKw "foreword".data (r.dropWhile isJsWs)).map (fun (_, rest) => rest)

/-- Phrase content matchers, at a given position, for the section keywords;
returns the rest after the phrase.  The phrase `avant[-\s]?propos` allows one
optional hyphen-or-space between the parts. -/
def sectionPhraseAt : String → List Char → Option (List Char)
  | "author’s foreword", l => do
    let (_, r) ← takeKw "author".data l
    forewordTail r
  | "avant-propos", l => do
    let (_, r) ← takeKw "avant".data l
    let r := optDrop1 (fun c => c = '-' || isJsWs c) r
    let (_, r2) ← takeKw "propos".data r
    some r2
  | kw, l => (takeKw kw.data l).map (fun (_, r) => r)

/-- Anchored section pattern `^(PHRASE)\s*[:\-–]?\s*(.*)$` (flag `i`):
returns `(matched phrase slice, title capture)`. -/
def matchSectionAnchored (kw : String) (l : List Char) : Option (List Char × List Char) := do
  let r ← sectionPhraseAt kw l
  let m := l.take (l.length - r.length)
  let t ← sepTitleTail r
  some (m, t)

/-- Whether the phrase occurs somewhere in the line with `\b` boundaries on
both sides (catch-all patterns `^(.*\bPHRASE\b.*)$`).  `useB := false` drops
the boundary checks (the Japanese catch-alls have no `\b`). -/
def containsPhrase (useB : Bool) (kw : String) : Option Char → List Char → Bool
  | _, [] =>
    match sectionPhraseAt kw [] with
    | some _ => true
    | none => false
  | prev, c :: cs =>
    (match sectionPhraseAt kw (c :: cs) with
     | some rest =>
       let m := (c :: cs).take ((c :: cs).length - rest.length)
       (!useB || (wordBoundary prev m.head? && wordBoundary m.getLast? rest.head?))
     | none => false) ||
    containsPhrase useB kw (some c) cs

/-- Builds the title of an anchored section match:
``rest ? `${main}: ${rest}` : main`` with both pieces trimmed. -/
def sectionTitle (m rest : List Char) : List Char :=
  let main := trimL m
  let r := trimL rest
  if r.isEmpty then main else main ++ ':' :: ' ' :: r

/-- The ordered explicit section patterns per language: anchored phrases
first, then `\b`-guarded catch-alls (no `\b` for ja). -/
def sectionAnchoredKws : Lang → List String
  | .fr => ["prologue", "épilogue", "avant-propos", "postface"]
  | .en => ["prologue", "epilogue", "author’s foreword", "afterword", "intermission"]
  | .ja => ["プロローグ", "エピローグ"]

/-- Catch-all keywords per language. -/
def sectionCatchAllKws : Lang → List String
  | .fr => ["prologue", "épilogue"]
  | .en => ["prologue", "epilogue", "author’s foreword", "afterword", "intermission"]
  | .ja => ["プロローグ", "エピローグ"]

/-- First matching explicit section pattern: anchored patterns yield
`(main, rest)`; a catch-all yields the whole line (`match[1] = match[0]`,
no group 2), and cannot match when the line contains a line terminator
(`.` never matches one). -/
def sectionExplicit (lang : Lang) (t : List Char) : Option (List Char × List Char) :=
  let anchored := (sectionAnchoredKws lang).map
    (fun kw => matchSectionAnchored kw t)
  match anchored.find? Option.isSome with
  | some r => r
  | none =>
    let useB := lang != Lang.ja
    if (sectionCatchAllKws lang).any
        (fun kw => !t.any isRegexNl && containsPhrase useB kw none t) then
      some (t, [])
    else none

/-- Tier 2 of `detectSection`: the mostly-uppercase short header heuristic
on the trimmed line. -/
def sectionTier2 (t : List Char) : Option SectionMatch :=
  if 3 ≤ jsLenL t && jsLenL t ≤ 80 && !looksLikeOpeningContent ⟨t⟩ then
    let letters := t.filter isHeurLetter
    if !letters.isEmpty then
      let upper := letters.filter isHeurUpper
      if ratioGt7 (jsLenL upper) (jsLenL letters) && !endsSentencePunct t &&
          !([',', ' '].isSuffixOf t) && !(t.getLast? == some ',') then
        some (SectionMatch.mk ⟨t⟩)
      else none
    else none
  else none

/-- Tier 3 of `detectSection`: the "newswire" header heuristic on the
trimmed line. -/
def sectionTier3 (t : List Char) : Option SectionMatch :=
  if 10 ≤ jsLenL t && jsLenL t ≤ 160 && !looksLikeOpeningContent ⟨t⟩ then
    let letters := t.filter isHeurLetter
    if !letters.isEmpty then
      let upper := letters.filter isHeurUpper
      if ratioGt6 (jsLenL upper) (jsLenL letters) &&
          t.any (fun c => c.isDigit || c == ',') && !(t.getLast? == some ',') then
        some ⟨⟨t⟩⟩
      else none
    else none
  else none

/-- `detectSection`, translated tier by tier from the source.  The
`looksLikeOpeningContent` early return makes the per-tier repeats of that
check redundant; they are kept. -/
def detectSection (lang : Lang) (line : String) : Option SectionMatch :=
  let t := trimL line.data
  if t.isEmpty then none else
  if looksLikeOpeningContent ⟨t⟩ then none else
  match sectionExplicit lang t with
  | some (m, rest) =>
    let title := sectionTitle m rest
    if looksLikeOpeningContent ⟨title⟩ then none else some ⟨⟨title⟩⟩
  | none =>
    match sectionTier2 t with
    | some r => some r
    | none => sectionTier3 t

/-- `getDialogueMarkers` per language.  All configured markers are single
characters, so they are modelled as `Char`s; `startsWith(marker)` becomes a
first-character comparison. -/
def dialogueMarkers : Lang → List Char
  | .fr => ['—', '–', '-', '«', '“', '"']
  | .en => ['"', '“', '‘']
  | .ja => ['「', '『']

/-- `^page\s*[|:]\s*\d+\s*$` (flag `i`). -/
def pageP1 (t : List Char) : Bool :=
  match takeKw "page".data t with
  | none => false
  | some (_, r) =>
    match r.dropWhile isJsWs with
    | c :: cs =>
      (c == '|' || c == ':') &&
      (let r2 := cs.dropWhile isJsWs
       let ds := r2.takeWhile Char.isDigit
       !ds.isEmpty && ((r2.dropWhile Char.isDigit).dropWhile isJsWs).isEmpty)
    | [] => false

/-- `^page\s+\d+\s*$` (flag `i`). -/
def pageP2 (t : List Char) : Bool :=
  match takeKw "page".data t with
  | none => false
  | some (_, r) =>
    let w := r.takeWhile isJsWs
    !w.isEmpty &&
    (let r2 := r.dropWhile isJsWs
     let ds := r2.takeWhile Char.isDigit
     !ds.isEmpty && ((r2.dropWhile Char.isDigit).dropWhile isJsWs).isEmpty)

/-- `^\d+\s*\|\s*[Pp]\s*a\s*g\s*e\b` (case-sensitive, prefix match only). -/
def pageP3 (t : List Char) : Bool :=
  let ds := t.takeWhile Char.isDigit
  !ds.isEmpty &&
  (match (t.dropWhile Char.isDigit).dropWhile isJsWs with
   | '|' :: r =>
     (match r.dropWhile isJsWs with
      | p :: r2 =>
        (p == 'P' || p == 'p') &&
        (match r2.dropWhile isJsWs with
         | 'a' :: r3 =>
           (match r3.dropWhile isJsWs with
            | 'g' :: r4 =>
              (match r4.dropWhile isJsWs with
               | 'e' :: r5 => wordBoundary (some 'e') r5.head?
               | _ => false)
            | _ => false)
         | _ => false)
      | [] => false)
   | _ => false)

/-- `isPageLine`. -/
def isPageLine (line : String) : Bool :=
  let t := trimL line.data
  pageP1 t || pageP2 t || pageP3 t

/-- `isLikelyChapterTitleLine` (it reads no language configuration). -/
def isLikelyChapterTitleLine (line : String) : Bool :=
  let t := trimL line.data
  if t.isEmpty then false else
  if isPageLine ⟨t⟩ then false else
  if looksLikeOpeningContent ⟨t⟩ then false else
  if jsLenL t < 3 || 140 < jsLenL t then false else
  if endsSentencePunct t then false else
  !(4 ≤ t.countP (fun c => c == ',' || c == ';' || c == ':'))

end NovelPatternMatcher

/-! ### TextProcessor (src/libs/novel/textProcessor.ts) -/

/-- The block kinds emitted by the segmenter (`type BlockType`). -/
inductive PType where
  | paragraph | dialogue
deriving DecidableEq, BEq, Repr

/-- One segmenter output fragment (`{type, html}`). -/
structure PBlock where
  type : PType
  html : String
deriving DecidableEq, Repr

namespace TextProcessor

open NovelPatternMatcher

/-- The `sentenceEndings` set. -/
def sentenceEndings : List (List Char) :=
  [['.'], ['!'], ['?'], ['.', '.', '.'], ['。'], ['！'], ['？']]

/-- The scene-break glyph class `[◊◇◆✦*]`. -/
def isSceneGlyph (c : Char) : Bool :=
  c == '◊' || c == '◇' || c == '◆' || c == '✦' || c == '*'

/-- `sceneBreakRegex = /^([◊◇◆✦*]\s*){3,}$/u` on the trimmed line.  A string
matches iff it is nonempty, starts with a glyph, consists only of glyphs and
whitespace, and holds at least three glyphs: every such string decomposes
uniquely into glyph-then-whitespace groups, one group per glyph. -/
def isSceneBreak (line : String) : Bool :=
  let t := trimL line.data
  match t with
  | [] => false
  | c :: _ =>
    isSceneGlyph c && t.all (fun x => isSceneGlyph x || isJsWs x) &&
    3 ≤ t.countP (fun x => isSceneGlyph x)

/-- `isDialogueStart`: the first marker in configuration order whose text
prefixes the trimmed line (all markers are single characters, so this is a
first-character lookup); the plain double-quote additionally demands at
least two `"` characters in the line. -/
def isDialogueStart (lang : Lang) (line : String) : Bool :=
  let t := trimL line.data
  match t with
  | [] => false
  | c :: _ =>
    match (dialogueMarkers lang).find? (fun m => m = c) with
    | none => false
    | some m => if m ≠ '"' then true else 2 ≤ t.count '"'

/-- The trailing closing-quote class `[”"'»」』]` of `isSentenceEnd`. -/
def isClosingQuote (c : Char) : Bool :=
  c == '”' || c == '"' || c == '\'' || c == '»' || c == '」' || c == '』'

/-- `isSentenceEnd`: trim, strip trailing closing quotes, and test the
sentence-ending suffixes. -/
def isSentenceEnd (line : List Char) : Bool :=
  let t := (trimL line).rdropWhile isClosingQuote
  sentenceEndings.any (fun e => e.isSuffixOf t)

/-- The quote-only noise class `/^["“”«»『』「」]+$/` of `isValidLine`. -/
def isNoiseQuote (c : Char) : Bool :=
  c == '"' || c == '“' || c == '”' || c == '«' || c == '»' ||
  c == '『' || c == '』' || c == '「' || c == '」'

/-- `/^\d+\s+page\b/i` of `isValidLine`. -/
def numPageLine (t : List Char) : Bool :=
  let ds := t.takeWhile Char.isDigit
  !ds.isEmpty &&
  (let r := t.dropWhile Char.isDigit
   let w := r.takeWhile isJsWs
   !w.isEmpty &&
   (match takeKw "page".data (r.dropWhile isJsWs) with
    | some (_, rest) => wordBoundary (some 'e') rest.head?
    | none => false))

/-- `isValidLine`: rejects blank lines, bare URLs, quote-only OCR noise and
page-footer artifacts. -/
def isValidLine (line : List Char) : Bool :=
  let t := trimL line
  if t.isEmpty then false else
  if "http://".data.isPrefixOf t || "https://".data.isPrefixOf t then false else
  if t.all isNoiseQuote then false else
  if pageP3 t then false else
  if numPageLine t then false else
  if pageP1 t then false else
  if pageP2 t then false else
  true

/-- Removes the first `"` of the list (`indexOf`/`slice` of the source). -/
def removeFirstQuote : List Char → List Char
  | [] => []
  | c :: cs => if c = '"' then cs else c :: removeFirstQuote cs

/-- `cleanNonDialogueQuoteLine`: a line whose `trimStart` opens with `"` but
which is not recognised as dialogue loses that first quote. -/
def cleanNonDialogueQuoteLine (lang : Lang) (line : List Char) : List Char :=
  match line.dropWhile isJsWs with
  | '"' :: _ =>
    if isDialogueStart lang ⟨line⟩ then line else removeFirstQuote line
  | _ => line

/-- `escapeHtml`: three sequential global replacements `&`→`&amp;`,
`<`→`&lt;`, `>`→`&gt;` (one pass per character suffices: the first pass sees
no introduced `&`, later passes introduce no `<`/`>`). -/
def escapeChar (c : Char) (rep : List Char) : List Char → List Char
  | [] => []
  | x :: xs => (if x = c then rep else [x]) ++ escapeChar c rep xs

/-- `escapeHtml` on a character list. -/
def escapeHtml (l : List Char) : List Char :=
  escapeChar '>' "&gt;".data (escapeChar '<' "&lt;".data (escapeChar '&' "&amp;".data l))

/-- `line.replace(/\s+/g, " ").trim()` used for the scene-break markup. -/
def collapseWs : Nat → List Char → List Char
  | 0, l => l
  | _ + 1, [] => []
  | f + 1, c :: cs =>
    if isJsWs c then ' ' :: collapseWs f (cs.dropWhile isJsWs)
    else c :: collapseWs f cs

/-- `<p>…</p>` narration markup. -/
def paraHtml (cur : List Char) : String :=
  ⟨"<p>".data ++ escapeHtml (trimL cur) ++ "</p>".data⟩

/-- `<blockquote>…</blockquote>` dialogue markup. -/
def quoteHtml (cur : List Char) : String :=
  ⟨"<blockquote>".data ++ escapeHtml (trimL cur) ++ "</blockquote>".data⟩

/-- Flush of the running accumulator: dialogue or narration markup. -/
def flushBlock (inDialogue : Bool) (cur : List Char) : PBlock :=
  if inDialogue then ⟨.dialogue, quoteHtml cur⟩ else ⟨.paragraph, paraHtml cur⟩

/-- The scene-break fragment `<p class="scene-break">…</p>`. -/
def sceneBlock (line : List Char) : PBlock :=
  ⟨.paragraph,
    ⟨"<p class=\"scene-break\">".data ++
      escapeHtml (trimL (collapseWs line.length line)) ++ "</p>".data⟩⟩

/-- Loop state of `processParagraphSequential`: the accumulator, the
`inDialogue` flag, and the fragments emitted so far. -/
structure SegState where
  current : List Char
  inDialogue : Bool
  blocks : List PBlock
deriving Repr

/-- One iteration of the `processParagraphSequential` line loop. -/
def segStep (lang : Lang) (st : SegState) (line : List Char) : SegState :=
  if isSceneBreak ⟨line⟩ then
    let (blocks, cur, inD) :=
      if st.current ≠ [] then
        (st.blocks ++ [flushBlock st.inDialogue st.current], ([] : List Char), false)
      else (st.blocks, st.current, st.inDialogue)
    { current := cur, inDialogue := inD, blocks := blocks ++ [sceneBlock line] }
  else if isDialogueStart lang ⟨line⟩ then
    let blocks :=
      st.blocks ++
        (if st.current ≠ [] then [flushBlock st.inDialogue st.current] else [])
    if isSentenceEnd line then
      { current := [], inDialogue := false, blocks := blocks ++ [⟨.dialogue, quoteHtml line⟩] }
    else
      { current := line, inDialogue := true, blocks := blocks }
  else if st.inDialogue then
    let cur := st.current ++ (if st.current ≠ [] then ' ' :: line else line)
    if isSentenceEnd line then
      { current := [], inDialogue := false, blocks := st.blocks ++ [⟨.dialogue, quoteHtml cur⟩] }
    else
      { st with current := cur }
  else
    let cur := st.current ++ (if st.current ≠ [] then ' ' :: line else line)
    if isSentenceEnd line then
      { st with current := [], blocks := st.blocks ++ [⟨.paragraph, paraHtml cur⟩] }
    else
      { st with current := cur }

/-- `processParagraphSequential`: split the group into trimmed lines, drop
invalid ones, clean stray leading quotes, run the line loop, and flush any
trailing accumulator. -/
def processParagraphSequential (lang : Lang) (blocks₀ : List PBlock)
    (paragraph : List Char) : List PBlock :=
  let rawLines := ((splitNlL paragraph).map trimL).filter isValidLine
  if rawLines.isEmpty then blocks₀ else
  let lines := rawLines.map (cleanNonDialogueQuoteLine lang)
  let st := lines.foldl (segStep lang) ⟨[], false, blocks₀⟩
  st.blocks ++ (if st.current ≠ [] then [flushBlock st.inDialogue st.current] else [])

/-- `text.replace(/\r\n?/g, "\n")`. -/
def normalizeNl : List Char → List Char
  | [] => []
  | '\r' :: '\n' :: r => '\n' :: normalizeNl r
  | '\r' :: r => '\n' :: normalizeNl r
  | c :: r => c :: normalizeNl r

/-- Matches `G\s*G\s*G` at the head for one glyph `G`; returns
`(matched slice, rest)`. -/
def tripleAt (g : Char) (l : List Char) : Option (List Char × List Char) :=
  match l with
  | c :: r1 =>
    if c = g then
      let w1 := r1.takeWhile isJsWs
      match r1.dropWhile isJsWs with
      | c2 :: r3 =>
        if c2 = g then
          let w2 := r3.takeWhile isJsWs
          match r3.dropWhile isJsWs with
          | c3 :: r5 =>
            if c3 = g then some (g :: w1 ++ g :: w2 ++ [g], r5) else none
          | [] => none
        else none
      | [] => none
    else none
  | [] => none

/-- The scene-break alternation `(◊\s*◊\s*◊|◇\s*◇\s*◇|◆\s*◆\s*◆|✦\s*✦\s*✦|\*\s*\*\s*\*)`
at the head (at most one alternative can apply: each starts with its own
glyph). -/
def tripleAtAny (l : List Char) : Option (List Char × List Char) :=
  match tripleAt '◊' l with
  | some r => some r
  | none =>
    match tripleAt '◇' l with
    | some r => some r
    | none =>
      match tripleAt '◆' l with
      | some r => some r
      | none =>
        match tripleAt '✦' l with
        | some r => some r
        | none => tripleAt '*' l

/-- The global replace of `splitOnSceneBreakers`: each leftmost match is
rewritten to `"\n$1\n"` and scanning resumes after it.  Fuel ≥ list length
suffices (every step consumes at least one character). -/
def sceneScan : Nat → List Char → List Char
  | 0, l => l
  | _ + 1, [] => []
  | f + 1, c :: cs =>
    match tripleAtAny (c :: cs) with
    | some (m, rest) => '\n' :: (m ++ '\n' :: sceneScan f rest)
    | none => c :: sceneScan f cs

/-- `splitOnSceneBreakers`. -/
def splitOnSceneBreakers (l : List Char) : List Char := sceneScan l.length l

/-- The global replace `text.replace(/\s*Q/g, "\nQ")` for one opener `Q`:
a match is a maximal run of whitespace followed by `Q` (backtracking cannot
shorten the run, `Q` is not whitespace); on no match scanning advances one
character. -/
def openerScan (q : Char) : Nat → List Char → List Char
  | 0, l => l
  | _ + 1, [] => []
  | f + 1, c :: cs =>
    match (c :: cs).dropWhile isJsWs with
    | c2 :: r2 =>
      if c2 = q then '\n' :: c2 :: openerScan q f r2
      else c :: openerScan q f cs
    | [] => c :: openerScan q f cs

/-- `splitOnDialogueOpeners`: one sequential replace pass per opener, in the
source's order. -/
def splitOnDialogueOpeners (l : List Char) : List Char :=
  let l1 := openerScan '"' l.length l
  let l2 := openerScan '“' l1.length l1
  let l3 := openerScan '«' l2.length l2
  let l4 := openerScan '『' l3.length l3
  openerScan '「' l4.length l4

/-- Drops the whitespace after the last `'\n'` of an all-whitespace run. -/
def keepToLastNl (run : List Char) : List Char :=
  run.rdropWhile (fun c => !(c = '\n'))

/-- `normalized.split(/\n\s*\n+/)`: a separator starts at a `'\n'` whose
maximal whitespace run holds a second `'\n'`, and extends to the last `'\n'`
of that run (greedy `\s*` backtracks just enough to feed `\n+`). -/
def paraScan : Nat → List Char → List (List Char)
  | 0, l => [l]
  | _ + 1, [] => [[]]
  | f + 1, c :: cs =>
    let run := (c :: cs).takeWhile isJsWs
    if c = '\n' && 2 ≤ run.count '\n' then
      let sep := keepToLastNl run
      [] :: paraScan f ((c :: cs).drop sep.length)
    else
      let r := paraScan f cs
      (c :: r.headD []) :: r.tail

/-- `processContent`: normalise line endings, isolate scene breakers, break
lines before dialogue openers, split into paragraph groups on blank lines,
and process each group sequentially. -/
def processContent (lang : Lang) (text : String) : List PBlock :=
  let normalized := normalizeNl text.data
  let normalized := splitOnSceneBreakers normalized
  let normalized := splitOnDialogueOpeners normalized
  let paragraphs := ((paraScan normalized.length normalized).map trimL).filter
    (fun p => !p.isEmpty)
  paragraphs.foldl (processParagraphSequential lang) []

end TextProcessor

/-! ### Data model (src/libs/novel/types.ts) -/

/-- `Block`: a paragraph/dialogue html block or an image block. -/
inductive NovelBlock where
  | content (id : String) (btype : PType) (html : String)
  | image (id : String) (src : String) (alt : String)
deriving DecidableEq, Repr

/-- The block kind, with images distinguished. -/
def NovelBlock.kind : NovelBlock → Option PType
  | .content _ t _ => some t
  | .image _ _ _ => none

/-- `Chapter`. -/
structure Chapter where
  id : String
  number : Nat
  title : String
  blocks : List NovelBlock
deriving DecidableEq, Repr

/-- `TocItem`. -/
structure TocItem where
  id : String
  label : String
  chapterNumber : Nat
deriving DecidableEq, Repr

/-- `NovelMetadata`. -/
structure NovelMetadata where
  title : String
  language : Lang
  author : Option String
  series : Option String
  volume : Option String
deriving DecidableEq, Repr

/-- `Novel`. -/
structure Novel where
  metadata : NovelMetadata
  toc : List TocItem
  chapters : List Chapter
deriving DecidableEq, Repr

/-- `RawBlock`: extracted page text or an already-encoded image. -/
inductive RawBlock where
  | text (pageIndex order : Nat) (text : String)
  | image (pageIndex order : Nat) (dataUrl : String) (alt : String)
deriving DecidableEq, Repr

/-- `ConvertOptions`. -/
structure ConvertOptions where
  title : String
  language : Lang
  author : Option String := none
  series : Option String := none
  volume : Option String := none
deriving DecidableEq, Repr

/-! ### convertBlocksToNovel (src/libs/novel/converter.ts) -/

namespace Converter

open NovelPatternMatcher TextProcessor

/-- The mutable locals of `convertBlocksToNovel` carried across the scan.
`nextId` models the `nanoid()` supply. -/
structure ConvState where
  chapters : List Chapter
  currentBlocks : List NovelBlock
  currentTitle : String
  currentNumber : Option Nat
  chapterCount : Nat
  pendingText : String
  nextId : Nat
deriving Repr

/-- The initial state of a conversion. -/
def initState : ConvState :=
  { chapters := [], currentBlocks := [], currentTitle := "Prologue",
    currentNumber := none, chapterCount := 0, pendingText := "", nextId := 0 }

/-- `flushPendingText`: run the pending text through the segmenter and
append the fragments (with fresh ids) to the current chapter's blocks. -/
def flushPendingText (lang : Lang) (st : ConvState) : ConvState :=
  let trimmed := jsTrim st.pendingText
  if trimmed = "" then st else
  let processed := processContent lang trimmed
  { st with
    currentBlocks := st.currentBlocks ++ processed.enum.map
      (fun (i, p) => NovelBlock.content ("b" ++ toString (st.nextId + i)) p.type p.html),
    nextId := st.nextId + processed.length,
    pendingText := "" }

/-- `pushCurrentChapter`: flush pending text first; materialise the chapter
only when it accumulated at least one block; `number` falls back to the
strictly increasing counter and an empty title to `"Chapitre <number>"`. -/
def pushCurrentChapter (lang : Lang) (st : ConvState) : ConvState :=
  let st := flushPendingText lang st
  if st.currentBlocks.isEmpty then st else
  let cnt := st.chapterCount + 1
  let number := st.currentNumber.getD cnt
  { st with
    chapters := st.chapters ++
      [{ id := "chapter-" ++ toString cnt, number := number,
         title := if st.currentTitle = "" then "Chapitre " ++ toString number
                  else st.currentTitle,
         blocks := st.currentBlocks }],
    currentBlocks := [], currentTitle := "", currentNumber := none,
    chapterCount := cnt }

/-- `isHeaderContinuation` (local helper of the converter). -/
def isHeaderContinuation (line : String) : Bool :=
  let t := trimL line.data
  if t.isEmpty then false else
  if endsSentencePunct t then false else
  if jsLenL t < 5 || 140 < jsLenL t then false else
  let letters := t.filter isHeurLetter
  if letters.isEmpty then false else
  ratioGt7 (jsLenL (letters.filter isHeurUpper)) (jsLenL letters)

/-- The section lookahead loop: skip blank lines, append
header-continuation lines to the title, and stop at the first
non-continuation; returns the full title and the unconsumed suffix
(consuming a continuation also consumes the blanks before it, `i = j`).
Fuel ≥ the suffix length suffices. -/
def lookahead : Nat → List String → String → String × List String
  | 0, rest, acc => (acc, rest)
  | f + 1, rest, acc =>
    let blanks := rest.takeWhile (· = "")
    match rest.drop blanks.length with
    | [] => (acc, rest)
    | x :: xs =>
      if isHeaderContinuation x then lookahead f xs (acc ++ " " ++ jsTrim x)
      else (acc, rest)

/-- The per-line loop of the converter over the trimmed lines of one text
block.  Fuel ≥ the number of lines suffices (each step consumes at least
the head line). -/
def procLines (lang : Lang) : Nat → ConvState → List String → ConvState
  | 0, st, _ => st
  | _ + 1, st, [] => st
  | f + 1, st, line :: rest =>
    if line = "" then procLines lang f st rest
    else
      match detectChapter lang line with
      | some chap =>
        let st := pushCurrentChapter lang st
        procLines lang f
          { st with
            currentTitle := if chap.title = "" then line else chap.title,
            currentNumber := chap.number } rest
      | none =>
        match detectSection lang line with
        | some sec =>
          let (fullTitle, rest') := lookahead rest.length rest sec.title
          let st := pushCurrentChapter lang st
          procLines lang f
            { st with currentTitle := fullTitle, currentNumber := none } rest'
        | none =>
          procLines lang f
            { st with pendingText :=
                st.pendingText ++ (if st.pendingText = "" then "" else "\n") ++ line }
            rest

/-- Processing of one raw block: text blocks run the line loop on the
trimmed lines; image blocks flush pending text and append an image block. -/
def procRawBlock (lang : Lang) (st : ConvState) : RawBlock → ConvState
  | .text _ _ t =>
    let lines := (splitNlL t.data).map (fun l => (⟨trimL l⟩ : String))
    procLines lang lines.length st lines
  | .image _ _ dataUrl alt =>
    let st := flushPendingText lang st
    { st with
      currentBlocks := st.currentBlocks ++
        [NovelBlock.image ("b" ++ toString st.nextId) dataUrl alt],
      nextId := st.nextId + 1 }

/-- `convertBlocksToNovel`. -/
def convertBlocksToNovel (rawBlocks : List RawBlock) (options : ConvertOptions) : Novel :=
  let lang := options.language
  let st := rawBlocks.foldl (procRawBlock lang) initState
  let st := pushCurrentChapter lang st
  let toc := (st.chapters.filter (fun c => 0 < jsLen (jsTrim c.title))).map
    (fun c => TocItem.mk c.id c.title c.number)
  { metadata :=
      { title := options.title, language := options.language,
        author := options.author, series := options.series, volume := options.volume },
    toc := toc, chapters := st.chapters }

end Converter

/-! ### PNG encoder (src/libs/novel/pdf.ts) -/

namespace Pdf

/-- Reading `data[i]` from a `Uint8Array` model: an out-of-range read gives
`undefined`, which every consumer in the encoder coerces to `0` (the
`?? 0` fallback, or `NaN → 0` on the `Buffer` store). -/
def byteOf (data : List Nat) (i : Nat) : Nat := data.getD i 0

/-- The `[r, g, b, a]` bytes one pixel contributes to the raw scanline
buffer, following the `components` branches of the source loop; values are
reduced mod 256 as by the `Buffer` element store. -/
def pixelRGBA (components : Nat) (data : List Nat) (src : Nat) : List Nat :=
  if components = 4 then
    [byteOf data src % 256, byteOf data (src + 1) % 256,
     byteOf data (src + 2) % 256, byteOf data (src + 3) % 256]
  else if components = 3 then
    [byteOf data src % 256, byteOf data (src + 1) % 256,
     byteOf data (src + 2) % 256, 255]
  else if components = 1 then
    [byteOf data src % 256, byteOf data src % 256, byteOf data src % 256, 255]
  else
    [byteOf data src % 256, byteOf data src % 256, byteOf data src % 256, 255]

/-- The inner `x` loop of the scanline fill: `remaining` pixels starting at
column `x` of row `y`. -/
def rowFrom (components w : Nat) (data : List Nat) (y : Nat) : Nat → Nat → List Nat
  | 0, _ => []
  | r + 1, x => pixelRGBA components data ((y * w + x) * components) ++
      rowFrom components w data y r (x + 1)

/-- One whole scanline (without the filter byte) of row `y`. -/
def rowBytes (components w : Nat) (data : List Nat) (y : Nat) : List Nat :=
  rowFrom components w data y w 0

/-- The outer `y` loop: `remaining` rows starting at row `y`, each row
prefixed with filter byte `0`. -/
def rawFrom (components w : Nat) (data : List Nat) : Nat → Nat → List Nat
  | 0, _ => []
  | r + 1, y => 0 :: rowBytes components w data y ++ rawFrom components w data r (y + 1)

/-- The raw filtered scanline buffer (`raw` of the source): `h` rows of
`w * 4 + 1` bytes. -/
def buildRaw (w h components : Nat) (data : List Nat) : List Nat :=
  rawFrom components w data h 0

/-- The component-count inference of the source:
`totalPixels > 0 ? Math.max(1, Math.floor(data.length / totalPixels)) : 4`. -/
def componentsOf (w h len : Nat) : Nat :=
  if 0 < w * h then max 1 (len / (w * h)) else 4

/-- The raw scanline buffer the encoder deflates, with the inferred
component count. -/
def encodeRaw (w h : Nat) (data : List Nat) : List Nat :=
  buildRaw w h (componentsOf w h data.length) data

/-- One iteration of the CRC table generator:
`c = c & 1 ? 0xedb88320 ^ (c >>> 1) : c >>> 1`. -/
def crcByteStep (c : Nat) : Nat :=
  if c % 2 = 1 then Nat.xor 0xEDB88320 (c >>> 1) else c >>> 1

/-- One table entry: eight generator iterations on the index. -/
def crcEntry (i : Nat) : Nat := crcByteStep^[8] i

/-- The 256-entry CRC32 lookup table of the source. -/
def crcTable : List Nat := (List.range 256).map crcEntry

/-- Table-driven `crc32` of the source:  start from `~0`, per byte
`crc = (crc >>> 8) ^ table[(crc ^ buf[i]) & 0xff]`, and complement the
result (`~crc >>> 0` equals `crc ^ 0xFFFFFFFF` for 32-bit values). -/
def crc32 (buf : List Nat) : Nat :=
  Nat.xor
    (buf.foldl (fun crc b => Nat.xor (crc >>> 8) (crcTable.getD (Nat.xor crc b % 256) 0))
      0xFFFFFFFF)
    0xFFFFFFFF

/-- `writeUInt32BE` digits of an in-range value. -/
def be32 (n : Nat) : List Nat :=
  [n / 2 ^ 24 % 256, n / 2 ^ 16 % 256, n / 2 ^ 8 % 256, n % 256]

/-- ASCII bytes of a chunk type. -/
def asciiBytes (s : String) : List Nat := s.data.map Char.toNat

/-- The `chunk` helper: big-endian length, type, data, and the CRC32 of
type + data. -/
def mkChunk (type : String) (d : List Nat) : List Nat :=
  be32 d.length ++ asciiBytes type ++ d ++ be32 (crc32 (asciiBytes type ++ d))

/-- The 8-byte PNG signature `89504E470D0A1A0A`. -/
def pngSignature : List Nat := [0x89, 0x50, 0x4E, 0x47, 0x0D, 0x0A, 0x1A, 0x0A]

/-- `encodeRGBAtoPNG` up to the final base64 step, parameterised by the
external `zlib.deflateSync` (`level: 1` only selects its speed).  Failure
cases are the JS range errors: `Buffer.alloc` of a negative size and
`writeUInt32BE` outside `[0, 2^32)` — the source performs no other
validation. -/
def encodeRGBAtoPNGBytes (deflate : List Nat → List Nat) (width height : Int)
    (data : List Nat) : Except String (List Nat) :=
  if (width * 4 + 1) * height < 0 then .error "Buffer.alloc: negative size" else
  if width < 0 || (2 ^ 32 : Int) ≤ width || height < 0 || (2 ^ 32 : Int) ≤ height then
    .error "writeUInt32BE: value out of range" else
  let w := width.toNat
  let h := height.toNat
  let raw := encodeRaw w h data
  let ihdr := be32 w ++ be32 h ++ [8, 6, 0, 0, 0]
  let idat := deflate raw
  if (2 ^ 32 : Nat) ≤ idat.length then .error "writeUInt32BE: value out of range" else
  .ok (pngSignature ++ mkChunk "IHDR" ihdr ++ mkChunk "IDAT" idat ++ mkChunk "IEND" [])

/-- The RFC 4648 base64 alphabet. -/
def base64Char (n : Nat) : Char :=
  "ABCDEFGHIJKLMNOPQRSTUVWXYZabcdefghijklmnopqrstuvwxyz0123456789+/".data.getD n 'A'

/-- Base64 groups of three bytes (`Buffer.prototype.toString("base64")`). -/
def base64Go : List Nat → List Char
  | b0 :: b1 :: b2 :: rest =>
    base64Char (b0 / 4) :: base64Char (b0 % 4 * 16 + b1 / 16) ::
    base64Char (b1 % 16 * 4 + b2 / 64) :: base64Char (b2 % 64) :: base64Go rest
  | [b0, b1] =>
    [base64Char (b0 / 4), base64Char (b0 % 4 * 16 + b1 / 16),
     base64Char (b1 % 16 * 4), '=']
  | [b0] => [base64Char (b0 / 4), base64Char (b0 % 4 * 16), '=', '=']
  | [] => []

/-- Base64 of a byte list. -/
def base64Encode (bytes : List Nat) : String := ⟨base64Go bytes⟩

/-- `encodeRGBAtoPNG`: the PNG bytes, base64-encoded. -/
def encodeRGBAtoPNG (deflate : List Nat → List Nat) (width height : Int)
    (data : List Nat) : Except String String :=
  (encodeRGBAtoPNGBytes deflate width height data).map base64Encode

/-- One image descriptor as returned by `unpdf.extractImages`. -/
structure ExtractedImage where
  width : Int
  height : Int
  data : List Nat
deriving Repr

/-- `MAX_IMAGES_TOTAL`. -/
def maxImagesTotal : Nat := 40

/-- `MAX_IMAGES_PER_PAGE`. -/
def maxImagesPerPage : Nat := 3

/-- `MIN_IMAGE_AREA`. -/
def minImageArea : Int := 200000

/-- The per-page image loop of `parsePdfToBlocks`: per-page and total caps,
the minimum-area filter, and the `try { encode } catch { continue }` that
skips an image whose encoding fails.  Returns the produced image blocks and
the updated total counter; by construction it never propagates an error. -/
def collectPageImages (deflate : List Nat → List Nat) (pageIndex : Nat) :
    Nat → Nat → List ExtractedImage → List RawBlock × Nat
  | _, total, [] => ([], total)
  | onPage, total, img :: rest =>
    if maxImagesPerPage ≤ onPage then ([], total)
    else if maxImagesTotal ≤ total then ([], total)
    else if img.width * img.height < minImageArea then
      collectPageImages deflate pageIndex onPage total rest
    else
      match encodeRGBAtoPNG deflate img.width img.height img.data with
      | .error _ => collectPageImages deflate pageIndex onPage total rest
      | .ok b64 =>
        let blk := RawBlock.image pageIndex 0 ("data:image/png;base64," ++ b64)
          ("Image p." ++ toString (pageIndex + 1))
        let (bs, t) := collectPageImages deflate pageIndex (onPage + 1) (total + 1) rest
        (blk :: bs, t)

end Pdf

/-! ### Spec-side descriptions of the PNG output and a reference decoder -/

namespace PngSpec

open Pdf

/-- Modelled from the spec: reflected CRC-32, polynomial `0xEDB88320`,
computed bit by bit (no table): per byte, xor the byte into the register and
run eight reflected-polynomial bit steps; initial register all-ones, final
complement. -/
def crc32Spec (buf : List Nat) : Nat :=
  Nat.xor
    (buf.foldl (fun crc b => crcByteStep^[8] (Nat.xor crc b)) 0xFFFFFFFF)
    0xFFFFFFFF

/-- Modelled from the spec: per-pixel component count
`max(1, floor(bufferLength / (width*height)))`. -/
def componentsSpec (w h len : Nat) : Nat := max 1 (len / (w * h))

/-- Modelled from the spec: the RGBA bytes of pixel group `pix` — 1
component replicated to R=G=B with alpha 255, 3 components RGB with alpha
255, 4 components passed through, any other count via the first byte of the
group as grayscale.  Bytes are reduced mod 256 (`Uint8Array`/`Buffer`
element semantics). -/
def pixelSpec (components : Nat) (data : List Nat) (pix : Nat) : List Nat :=
  if components = 4 then
    [byteOf data (pix * components) % 256, byteOf data (pix * components + 1) % 256,
     byteOf data (pix * components + 2) % 256, byteOf data (pix * components + 3) % 256]
  else if components = 3 then
    [byteOf data (pix * components) % 256, byteOf data (pix * components + 1) % 256,
     byteOf data (pix * components + 2) % 256, 255]
  else if components = 1 then
    [byteOf data (pix * components) % 256, byteOf data (pix * components) % 256,
     byteOf data (pix * components) % 256, 255]
  else
    [byteOf data (pix * components) % 256, byteOf data (pix * components) % 256,
     byteOf data (pix * components) % 256, 255]

/-- Modelled from the spec: the filtered scanline stream — one scanline per
row, each prefixed with filter-type byte `0`, so each occupies
`width*4 + 1` bytes. -/
def scanlinesSpec (w h components : Nat) (data : List Nat) : List Nat :=
  (List.range h).flatMap (fun y =>
    0 :: (List.range w).flatMap (fun x => pixelSpec components data (y * w + x)))

/-- Modelled from the spec: a chunk is a big-endian length, the type, the
data, and a CRC32 over type + data. -/
def chunkSpec (type : String) (d : List Nat) : List Nat :=
  be32 d.length ++ asciiBytes type ++ d ++ be32 (crc32Spec (asciiBytes type ++ d))

/-- Modelled from the spec: the whole PNG byte stream — signature, `IHDR`
with width, height, bit depth 8, color type 6 and zero
compression/filter/interlace fields, a single `IDAT` holding the deflated
scanline stream, and an empty `IEND`. -/
def pngSpec (deflate : List Nat → List Nat) (w h : Nat) (data : List Nat) : List Nat :=
  let components := componentsSpec w h data.length
  pngSignature ++
  chunkSpec "IHDR" (be32 w ++ be32 h ++ [8, 6, 0, 0, 0]) ++
  chunkSpec "IDAT" (deflate (scanlinesSpec w h components data)) ++
  chunkSpec "IEND" []

/-- Big-endian 32-bit read of the first four bytes. -/
def readBe32 (l : List Nat) : Nat :=
  match l with
  | a :: b :: c :: d :: _ => ((a * 256 + b) * 256 + c) * 256 + d
  | _ => 0

/-- Modelled from the spec: chunk walk of a standard PNG decoder — each
chunk is a 4-byte big-endian length, 4-byte type, the data, and 4 CRC bytes.
Returns `(type bytes, data)` pairs.  Fueled; fuel ≥ the chunk count
suffices. -/
def parseChunks : Nat → List Nat → List (List Nat × List Nat)
  | 0, _ => []
  | f + 1, bytes =>
    if bytes.length < 8 then [] else
    let len := readBe32 (bytes.take 4)
    let ty := (bytes.drop 4).take 4
    let d := (bytes.drop 8).take len
    (ty, d) :: parseChunks f (bytes.drop (8 + len + 4))

/-- Modelled from the spec: drop the filter-type byte at the start of each
of `h` scanlines of `stride` bytes. -/
def unfilterRows : Nat → Nat → List Nat → List Nat
  | 0, _, _ => []
  | h + 1, stride, bytes =>
    (bytes.take stride).drop 1 ++ unfilterRows h stride (bytes.drop stride)

/-- Modelled from the spec: a standard PNG decoder restricted to the subset
the encoder emits — check the signature, read width and height from `IHDR`,
zlib-inflate the single `IDAT` chunk, and drop the filter byte of every
scanline.  The zlib inflate itself is the abstract parameter `inflate`. -/
def decodePNG (inflate : List Nat → List Nat) (png : List Nat) : Option (List Nat) :=
  if png.take 8 ≠ pngSignature then none else
  let chunks := parseChunks png.length (png.drop 8)
  match chunks.find? (fun c => c.1 = asciiBytes "IHDR"),
        chunks.find? (fun c => c.1 = asciiBytes "IDAT") with
  | some (_, ihdr), some (_, idat) =>
    let w := readBe32 (ihdr.take 4)
    let h := readBe32 ((ihdr.drop 4).take 4)
    some (unfilterRows h (w * 4 + 1) (inflate idat))
  | _, _ => none

end PngSpec

/-! ### Basic lemmas about the string primitives -/

theorem dropWhile_head_neg {p : Char → Bool} :
    ∀ {l c : List Char} {a : Char}, l.dropWhile p = a :: c → p a = false := by
  intro l
  induction l with
  | nil => intro c a h; simp [List.dropWhile] at h
  | cons x l ih =>
    intro c a h
    by_cases hx : p x
    · rw [List.dropWhile_cons_of_pos hx] at h; exact ih h
    · rw [List.dropWhile_cons_of_neg hx] at h
      cases h; simpa using hx

theorem rdropWhile_cons_neg {p : Char → Bool} {c : Char} (l : List Char)
    (hc : p c = false) : (c :: l).rdropWhile p = c :: l.rdropWhile p := by
  simp only [List.rdropWhile, List.reverse_cons, List.dropWhile_append]
  have hpc : ¬ p c := by simp [hc]
  by_cases h : (List.dropWhile p l.reverse).isEmpty
  · rw [if_pos h, List.isEmpty_iff.1 h, List.dropWhile_cons_of_neg hpc]
    simp
  · rw [if_neg h]
    simp

theorem trimL_cons_neg {c : Char} {l : List Char} (hc : isJsWs c = false) :
    trimL (c :: l) = c :: l.rdropWhile isJsWs := by
  unfold trimL
  rw [List.dropWhile_cons_of_neg (by simp [hc]), rdropWhile_cons_neg _ hc]

theorem trimL_head_neg : ∀ {l c : List Char} {a : Char},
    trimL l = a :: c → isJsWs a = false := by
  intro l c a h
  unfold trimL at h
  have hpre := List.rdropWhile_prefix isJsWs (l := l.dropWhile isJsWs)
  rw [h] at hpre
  obtain ⟨s, hs⟩ := hpre
  exact dropWhile_head_neg (l := l) hs.symm

theorem trimL_eq_nil_iff {l : List Char} :
    trimL l = [] ↔ ∀ c ∈ l, isJsWs c := by
  unfold trimL
  rw [List.rdropWhile_eq_nil_iff]
  constructor
  · intro h c hc
    by_contra hcw
    rcases hd : l.dropWhile isJsWs with _ | ⟨d, ds⟩
    · have := List.dropWhile_eq_nil_iff.1 hd c hc
      exact hcw this
    · have h1 := h d (by rw [hd]; exact List.mem_cons_self _ _)
      have h2 : isJsWs d = false := dropWhile_head_neg hd
      rw [h2] at h1
      exact Bool.false_ne_true h1
  · intro h c hc
    have hsub : l.dropWhile isJsWs <:+ l := List.dropWhile_suffix _
    exact h c (hsub.subset hc)

theorem trimL_ne_nil_of_head {c : Char} {l t : List Char}
    (h : l = c :: t) (hc : isJsWs c = false) : trimL l ≠ [] := by
  intro hnil
  have h1 := trimL_eq_nil_iff.1 hnil c (by rw [h]; exact List.mem_cons_self _ _)
  rw [hc] at h1
  exact Bool.false_ne_true h1

theorem trimL_idem (l : List Char) : trimL (trimL l) = trimL l := by
  rcases h : trimL l with _ | ⟨c, t⟩
  · simp [trimL, List.rdropWhile]
  · have hc := trimL_head_neg h
    have h2 : (c :: t).rdropWhile isJsWs = c :: t := by
      have h3 : (trimL l).rdropWhile isJsWs = trimL l := by
        unfold trimL
        rw [List.rdropWhile_idempotent]
      rw [h] at h3
      exact h3
    rw [rdropWhile_cons_neg t hc] at h2
    rw [trimL_cons_neg hc, h2]

theorem jsTrim_idem (s : String) : jsTrim (jsTrim s) = jsTrim s := by
  simp [jsTrim, trimL_idem]

theorem string_mk_ne_empty {l : List Char} (h : l ≠ []) : (⟨l⟩ : String) ≠ "" := by
  intro he
  exact h (congrArg String.data he)

theorem jsTrim_ne_empty_of_head {s : String} {c : Char} {t : List Char}
    (h : s.data = c :: t) (hc : isJsWs c = false) : jsTrim s ≠ "" := by
  unfold jsTrim
  exact string_mk_ne_empty (by rw [h]; exact trimL_ne_nil_of_head rfl hc)

theorem jsLenL_aux (l : List Char) (a : Nat) :
    l.foldl (fun n c => n + (if c.toNat < 0x10000 then 1 else 2)) a =
      a + jsLenL l := by
  induction l generalizing a with
  | nil => simp [jsLenL]
  | cons c t ih =>
    simp only [List.foldl_cons, jsLenL] at *
    rw [ih, ih (a := 0 + _)]
    omega

theorem jsLenL_cons (c : Char) (t : List Char) :
    jsLenL (c :: t) = (if c.toNat < 0x10000 then 1 else 2) + jsLenL t := by
  simp only [jsLenL, List.foldl_cons]
  rw [jsLenL_aux, jsLenL_aux]
  omega

theorem jsLenL_eq_zero_iff {l : List Char} : jsLenL l = 0 ↔ l = [] := by
  cases l with
  | nil => simp [jsLenL]
  | cons c t => rw [jsLenL_cons]; split <;> simp

theorem ws_lcChar {c : Char} (h : isJsWs c = true) : lcChar c = c := by
  unfold isJsWs at h
  unfold lcChar
  simp only [Bool.or_eq_true, beq_iff_eq, Bool.and_eq_true, decide_eq_true_eq] at h
  rw [if_neg (by simp only [Bool.and_eq_true, decide_eq_true_eq]; omega),
    if_neg (by simp only [beq_iff_eq]; omega)]

theorem not_ws_of_lc {c k : Char} (h : lcChar c = lcChar k)
    (hk : isJsWs (lcChar k) = false) : isJsWs c = false := by
  by_contra hcw
  have hcw' : isJsWs c = true := by
    cases hval : isJsWs c
    · exact absurd hval hcw
    · rfl
  have h1 := ws_lcChar hcw'
  have h2 : c = lcChar k := h1.symm.trans h
  rw [← h2, hcw'] at hk
  exact absurd hk (by simp)

theorem jsLen_pos_iff {s : String} : 0 < jsLen s ↔ s ≠ "" := by
  constructor
  · intro h he
    rw [he] at h
    exact absurd h (by decide)
  · intro h
    by_contra h0
    apply h
    have h1 : jsLen s = 0 := by omega
    have h2 : s.data = [] := jsLenL_eq_zero_iff.1 h1
    cases s with
    | mk d =>
      simp only at h2
      subst h2
      rfl

/-! ### Shape lemmas about the pattern matcher -/

namespace NovelPatternMatcher

theorem takeKw_decomp : ∀ {kw l : List Char} {m r : List Char},
    takeKw kw l = some (m, r) → l = m ++ r ∧ m.length = kw.length := by
  intro kw
  induction kw with
  | nil =>
    intro l m r h
    simp only [takeKw] at h
    cases h
    exact ⟨rfl, rfl⟩
  | cons k ks ih =>
    intro l m r h
    cases l with
    | nil => simp [takeKw] at h
    | cons c cs =>
      simp only [takeKw] at h
      split at h
      · rcases hrec : takeKw ks cs with _ | ⟨m', r'⟩
        · rw [hrec] at h; simp at h
        · rw [hrec] at h
          simp only [Option.map_some'] at h
          cases h
          obtain ⟨h1, h2⟩ := ih hrec
          constructor
          · simp [h1]
          · simp [h2]
      · simp at h

theorem takeKw_head {k : Char} {ks l m r : List Char}
    (h : takeKw (k :: ks) l = some (m, r)) :
    ∃ c m', m = c :: m' ∧ lcChar c = lcChar k := by
  cases l with
  | nil => simp [takeKw] at h
  | cons c cs =>
    simp only [takeKw] at h
    split at h
    · next heq =>
      rcases hrec : takeKw ks cs with _ | ⟨m', r'⟩
      · rw [hrec] at h; simp at h
      · rw [hrec] at h
        simp only [Option.map_some'] at h
        cases h
        exact ⟨c, m', rfl, heq⟩
    · simp at h

theorem takeKw_some_le {kw l m r : List Char} (h : takeKw kw l = some (m, r)) :
    r.length ≤ l.length := by
  obtain ⟨h1, _⟩ := takeKw_decomp h
  rw [h1]
  simp

theorem takeKw_some_lt {k : Char} {ks l m r : List Char}
    (h : takeKw (k :: ks) l = some (m, r)) : r.length < l.length := by
  obtain ⟨h1, h2⟩ := takeKw_decomp h
  rw [h1]
  simp only [List.length_append]
  have : m.length = ks.length + 1 := by simpa using h2
  omega

theorem dropWhile_length_le (p : Char → Bool) (l : List Char) :
    (l.dropWhile p).length ≤ l.length :=
  (List.dropWhile_suffix p).sublist.length_le

theorem optDrop1_le (cond : Char → Bool) (l : List Char) :
    (optDrop1 cond l).length ≤ l.length := by
  match l with
  | [] => simp [optDrop1]
  | c :: cs => simp only [optDrop1]; split <;> simp

theorem forewordTail_le {l r : List Char} (h : forewordTail l = some r) :
    r.length ≤ l.length := by
  unfold forewordTail at h
  set r1 := optDrop1 (fun c => c = '’' || c = '\'') l with hr1
  set r2 := optDrop1 (fun c => lcChar c = 's') r1 with hr2
  dsimp only at h
  split at h
  · exact absurd h (by simp)
  · rcases htk : takeKw "foreword".data (r2.dropWhile isJsWs) with _ | ⟨m3, r3⟩
    · rw [htk] at h; simp at h
    · rw [htk] at h
      simp only [Option.map_some', Option.some.injEq] at h
      rw [← h]
      calc r3.length ≤ (r2.dropWhile isJsWs).length := takeKw_some_le htk
        _ ≤ r2.length := dropWhile_length_le _ _
        _ ≤ r1.length := by rw [hr2]; exact optDrop1_le _ _
        _ ≤ l.length := by rw [hr1]; exact optDrop1_le _ _

theorem sectionPhraseAt_lt {kw : String} {l r : List Char} (hkw : kw ≠ "")
    (h : sectionPhraseAt kw l = some r) : r.length < l.length := by
  unfold sectionPhraseAt at h
  split at h
  · -- author’s foreword
    rcases htk : takeKw "author".data l with _ | ⟨m1, r1⟩
    · rw [htk] at h; simp at h
    · rw [htk] at h
      simp only [Option.bind_eq_bind, Option.some_bind] at h
      have h2 := forewordTail_le h
      have h3 := takeKw_some_lt htk
      omega
  · -- avant-propos
    rcases htk : takeKw "avant".data l with _ | ⟨m1, r1⟩
    · rw [htk] at h; simp at h
    · rw [htk] at h
      simp only [Option.bind_eq_bind, Option.some_bind] at h
      have h3 := takeKw_some_lt htk
      set r2 := optDrop1 (fun c => c = '-' || isJsWs c) r1 with hr2
      have hstep : r2.length ≤ r1.length := optDrop1_le _ _
      rcases htk2 : takeKw "propos".data r2 with _ | ⟨m2, r3⟩
      · rw [htk2] at h; simp at h
      · rw [htk2] at h
        simp only [Option.bind_eq_bind, Option.some_bind] at h
        cases h
        have h4 := takeKw_some_le htk2
        omega
  · -- generic keyword
    next hne1 hne2 =>
    rcases hkd : kw.data with _ | ⟨k, ks⟩
    · exact absurd (by cases kw; simp only at hkd; subst hkd; rfl) hkw
    · rw [hkd] at h
      rcases htk : takeKw (k :: ks) l with _ | ⟨m1, r1⟩
      · rw [htk] at h; simp at h
      · rw [htk] at h
        simp only [Option.map_some'] at h
        cases h
        exact takeKw_some_lt htk

theorem head?_take_pos {l : List Char} {n : Nat} (hn : 0 < n) :
    (l.take n).head? = l.head? := by
  cases n with
  | zero => omega
  | succ k => cases l <;> simp

theorem take_pos_ne_nil {l : List Char} {n : Nat} (hn : 0 < n) (hl : l ≠ []) :
    l.take n ≠ [] := by
  cases n with
  | zero => omega
  | succ k => cases l with
    | nil => exact absurd rfl hl
    | cons c cs => simp

theorem sectionAnchoredKws_ne_empty {lang : Lang} {kw : String}
    (h : kw ∈ sectionAnchoredKws lang) : kw ≠ "" := by
  rcases lang <;> fin_cases h <;> decide

theorem sectionExplicit_head {lang : Lang} {t m rest : List Char}
    (h : sectionExplicit lang t = some (m, rest)) :
    m.head? = t.head? ∧ (t ≠ [] → m ≠ []) := by
  unfold sectionExplicit at h
  dsimp only at h
  rcases hf : (((sectionAnchoredKws lang).map (fun kw => matchSectionAnchored kw t)).find?
      Option.isSome) with _ | o
  · rw [hf] at h
    by_cases hcond : ((sectionCatchAllKws lang).any
        fun kw => !t.any isRegexNl && containsPhrase (lang != Lang.ja) kw none t) = true
    · rw [if_pos hcond] at h
      simp only [Option.some.injEq, Prod.mk.injEq] at h
      obtain ⟨hm, _⟩ := h
      subst hm
      exact ⟨rfl, fun ht => ht⟩
    · rw [if_neg hcond] at h
      exact absurd h (by simp)
  · rw [hf] at h
    subst h
    have hmem := List.mem_of_find?_eq_some hf
    simp only [List.mem_map] at hmem
    obtain ⟨kw, hkw, hmatch⟩ := hmem
    unfold matchSectionAnchored at hmatch
    rcases hph : sectionPhraseAt kw t with _ | r'
    · rw [hph] at hmatch; simp at hmatch
    · rw [hph] at hmatch
      simp only [Option.bind_eq_bind, Option.some_bind] at hmatch
      rcases hst : sepTitleTail r' with _ | ti
      · rw [hst] at hmatch; simp at hmatch
      · rw [hst] at hmatch
        simp only [Option.some_bind, Option.some.injEq, Prod.mk.injEq] at hmatch
        obtain ⟨hm, _⟩ := hmatch
        have hlt := sectionPhraseAt_lt (sectionAnchoredKws_ne_empty hkw) hph
        have hpos : 0 < t.length - r'.length := by omega
        constructor
        · rw [← hm]; exact head?_take_pos hpos
        · intro ht; rw [← hm]; exact take_pos_ne_nil hpos ht

theorem sectionTitle_head {c0 : Char} {m' rest : List Char} (hc : isJsWs c0 = false) :
    ∃ t', sectionTitle (c0 :: m') rest = c0 :: t' := by
  unfold sectionTitle
  rw [trimL_cons_neg hc]
  dsimp only
  split <;> exact ⟨_, rfl⟩

theorem sectionTier2_title {t : List Char} {r : SectionMatch}
    (h : sectionTier2 t = some r) : r.title.data = t := by
  unfold sectionTier2 at h
  dsimp only at h
  split at h
  · split at h
    · split at h
      · cases h; rfl
      · exact absurd h (by simp)
    · exact absurd h (by simp)
  · exact absurd h (by simp)

theorem sectionTier3_title {t : List Char} {r : SectionMatch}
    (h : sectionTier3 t = some r) : r.title.data = t := by
  unfold sectionTier3 at h
  dsimp only at h
  split at h
  · split at h
    · split at h
      · cases h; rfl
      · exact absurd h (by simp)
    · exact absurd h (by simp)
  · exact absurd h (by simp)

/-- Any successful `detectSection` yields a title whose first character
exists and is not whitespace. -/
theorem detectSection_head {lang : Lang} {line : String} {r : SectionMatch}
    (h : detectSection lang line = some r) :
    ∃ c t', r.title.data = c :: t' ∧ isJsWs c = false := by
  unfold detectSection at h
  dsimp only at h
  split at h
  · exact absurd h (by simp)
  · next hne =>
    have ht : ∃ c0 t0, trimL line.data = c0 :: t0 ∧ isJsWs c0 = false := by
      rcases htr : trimL line.data with _ | ⟨c0, t0⟩
      · rw [htr] at hne; simp at hne
      · exact ⟨c0, t0, rfl, trimL_head_neg htr⟩
    obtain ⟨c0, t0, htr, hc0⟩ := ht
    split at h
    · exact absurd h (by simp)
    · rcases hse : sectionExplicit lang (trimL line.data) with _ | ⟨m, rest⟩
      · rw [hse] at h
        rcases h2 : sectionTier2 (trimL line.data) with _ | r2
        · rw [h2] at h
          exact ⟨c0, t0, by rw [← htr]; exact sectionTier3_title h, hc0⟩
        · rw [h2] at h
          cases h
          exact ⟨c0, t0, by rw [← htr]; exact sectionTier2_title h2, hc0⟩
      · rw [hse] at h
        dsimp only at h
        obtain ⟨hhead, hne'⟩ := sectionExplicit_head hse
        have hmne : m ≠ [] := hne' (by rw [htr]; simp)
        rcases hm : m with _ | ⟨c1, m'⟩
        · exact absurd hm hmne
        · have hc1 : c1 = c0 := by
            rw [hm, htr] at hhead
            simpa using hhead
          have hc1w : isJsWs c1 = false := by rw [hc1]; exact hc0
          obtain ⟨t', hti⟩ := @sectionTitle_head _ m' rest hc1w
          split at h
          · exact absurd h (by simp)
          · cases h
            refine ⟨c1, t', ?_, hc1w⟩
            simpa [hm] using hti

/-- Any successful `detectChapter` yields an already-trimmed title. -/
theorem detectChapter_title {lang : Lang} {line : String} {m : ChapterMatch}
    (h : detectChapter lang line = some m) : jsTrim m.title = m.title := by
  have base : ∀ ds t, jsTrim (mkChapterMatch ds t).title = (mkChapterMatch ds t).title := by
    intro ds t
    simp [mkChapterMatch, jsTrim, trimL_idem]
  unfold detectChapter at h
  dsimp only at h
  split at h
  · exact absurd h (by simp)
  · rcases lang <;> dsimp only at h <;> repeat' split at h
    all_goals
      first
        | (cases h; exact base _ _)
        | cases h

end NovelPatternMatcher

/-! ### Converter invariants -/

namespace Converter

open NovelPatternMatcher

theorem lookahead_fst_head {c : Char} :
    ∀ (f : Nat) (rest : List String) (acc : String), acc.data.head? = some c →
      ((lookahead f rest acc).1).data.head? = some c := by
  intro f
  induction f with
  | zero => intro rest acc h; simpa [lookahead] using h
  | succ f ih =>
    intro rest acc h
    unfold lookahead
    dsimp only
    rcases hd : rest.drop (rest.takeWhile (· = "")).length with _ | ⟨x, xs⟩
    · simpa using h
    · dsimp only
      split
      · apply ih
        rw [String.data_append, String.data_append]
        rcases hacc : acc.data with _ | ⟨a, as⟩
        · rw [hacc] at h; simp at h
        · rw [hacc] at h
          simpa using h
      · simpa using h

theorem lookahead_snd_mem :
    ∀ (f : Nat) (rest : List String) (acc : String),
      ∀ l ∈ (lookahead f rest acc).2, l ∈ rest := by
  intro f
  induction f with
  | zero => intro rest acc l hl; simpa [lookahead] using hl
  | succ f ih =>
    intro rest acc l hl
    unfold lookahead at hl
    dsimp only at hl
    rcases hd : rest.drop (rest.takeWhile (· = "")).length with _ | ⟨x, xs⟩
    · rw [hd] at hl; simpa using hl
    · rw [hd] at hl
      dsimp only at hl
      split at hl
      · have hmem := ih xs _ l hl
        have hxs : xs ⊆ rest := by
          intro a ha
          have h1 : a ∈ rest.drop (rest.takeWhile (· = "")).length := by
            rw [hd]; exact List.mem_cons_of_mem _ ha
          exact List.drop_subset _ _ h1
        exact hxs hmem
      · simpa using hl

/-- The state invariant threaded through the conversion: every materialised
chapter has at least one block and a title with non-blank trim, and the
in-progress title is empty or has non-blank trim. -/
def StInv (st : ConvState) : Prop :=
  (∀ c ∈ st.chapters, c.blocks ≠ []) ∧
  (∀ c ∈ st.chapters, jsTrim c.title ≠ "") ∧
  (st.currentTitle = "" ∨ jsTrim st.currentTitle ≠ "")

theorem flushPendingText_chapters (lang : Lang) (st : ConvState) :
    (flushPendingText lang st).chapters = st.chapters ∧
    (flushPendingText lang st).currentTitle = st.currentTitle ∧
    (flushPendingText lang st).currentNumber = st.currentNumber ∧
    (flushPendingText lang st).chapterCount = st.chapterCount := by
  unfold flushPendingText
  dsimp only
  by_cases hc : jsTrim st.pendingText = ""
  · rw [if_pos hc]; exact ⟨rfl, rfl, rfl, rfl⟩
  · rw [if_neg hc]; exact ⟨rfl, rfl, rfl, rfl⟩

theorem flush_stinv {lang : Lang} {st : ConvState} (h : StInv st) :
    StInv (flushPendingText lang st) := by
  obtain ⟨hc, ht, hcur⟩ := flushPendingText_chapters lang st
  obtain ⟨h1, h2, h3⟩ := h
  refine ⟨?_, ?_, ?_⟩
  · rw [hc]; exact h1
  · rw [hc]; exact h2
  · rw [ht]; exact h3

theorem chapitre_fallback_trim (n : Nat) :
    jsTrim ("Chapitre " ++ toString n) ≠ "" := by
  apply jsTrim_ne_empty_of_head (c := 'C') (t := "hapitre ".data ++ (toString n).data)
  · rw [String.data_append]
    rfl
  · decide

theorem push_stinv {lang : Lang} {st : ConvState} (h : StInv st) :
    StInv (pushCurrentChapter lang st) := by
  have hf := @flush_stinv lang _ h
  obtain ⟨h1, h2, h3⟩ := hf
  unfold pushCurrentChapter
  dsimp only
  split
  · exact ⟨h1, h2, h3⟩
  · next hne =>
    refine ⟨?_, ?_, Or.inl rfl⟩
    · intro c hcmem
      simp only [List.mem_append, List.mem_singleton] at hcmem
      rcases hcmem with hm | hm
      · exact h1 c hm
      · subst hm
        dsimp only
        rw [← List.isEmpty_eq_false]
        simpa using hne
    · intro c hcmem
      simp only [List.mem_append, List.mem_singleton] at hcmem
      rcases hcmem with hm | hm
      · exact h2 c hm
      · subst hm
        dsimp only
        split
        · exact chapitre_fallback_trim _
        · next hemp =>
          rcases h3 with h3 | h3
          · exact absurd h3 hemp
          · exact h3

theorem procLines_stinv {lang : Lang} :
    ∀ (f : Nat) (lines : List String) (st : ConvState), StInv st →
      (∀ l ∈ lines, jsTrim l = l) → StInv (procLines lang f st lines) := by
  intro f
  induction f with
  | zero => intro lines st h _; simpa [procLines] using h
  | succ f ih =>
    intro lines st h hl
    cases lines with
    | nil => simpa [procLines] using h
    | cons line rest =>
      unfold procLines
      dsimp only
      split
      · exact ih rest st h (fun l hm => hl l (List.mem_cons_of_mem _ hm))
      · next hline =>
        rcases hchap : detectChapter lang line with _ | chap
        · rcases hsec : detectSection lang line with _ | sec
          · -- plain line: only pendingText changes
            apply ih rest _ _ (fun l hm => hl l (List.mem_cons_of_mem _ hm))
            obtain ⟨i1, i2, i3⟩ := h
            exact ⟨i1, i2, i3⟩
          · -- section header
            apply ih _ _ _ (fun l hm => hl l
              (List.mem_cons_of_mem _ (lookahead_snd_mem rest.length rest sec.title l hm)))
            have hp := @push_stinv lang _ h
            obtain ⟨i1, i2, _⟩ := hp
            refine ⟨i1, i2, Or.inr ?_⟩
            obtain ⟨c, t', hdata, hcw⟩ := detectSection_head hsec
            have hh : ((lookahead rest.length rest sec.title).1).data.head? = some c :=
              lookahead_fst_head _ _ _ (by rw [hdata]; rfl)
            rcases hfull : ((lookahead rest.length rest sec.title).1).data with _ | ⟨c2, t2⟩
            · rw [hfull] at hh; simp at hh
            · rw [hfull] at hh
              simp only [List.head?_cons, Option.some.injEq] at hh
              subst hh
              exact jsTrim_ne_empty_of_head hfull hcw
        · -- chapter header
          apply ih rest _ _ (fun l hm => hl l (List.mem_cons_of_mem _ hm))
          have hp := @push_stinv lang _ h
          obtain ⟨i1, i2, _⟩ := hp
          refine ⟨i1, i2, Or.inr ?_⟩
          dsimp only
          split
          · next =>
            rw [hl line (List.mem_cons_self _ _)]
            exact hline
          · next hne =>
            rw [detectChapter_title hchap]
            exact hne

theorem procRawBlock_stinv {lang : Lang} {st : ConvState} (h : StInv st)
    (rb : RawBlock) : StInv (procRawBlock lang st rb) := by
  cases rb with
  | text p o t =>
    apply procLines_stinv _ _ _ h
    intro l hm
    simp only [List.mem_map] at hm
    obtain ⟨x, _, hx⟩ := hm
    subst hx
    simp [jsTrim, trimL_idem]
  | image p o du alt =>
    obtain ⟨i1, i2, i3⟩ := @flush_stinv lang _ h
    unfold procRawBlock
    exact ⟨i1, i2, i3⟩

theorem foldl_stinv {lang : Lang} :
    ∀ (blocks : List RawBlock) (st : ConvState), StInv st →
      StInv (blocks.foldl (procRawBlock lang) st) := by
  intro blocks
  induction blocks with
  | nil => intro st h; exact h
  | cons b bs ih =>
    intro st h
    exact ih _ (procRawBlock_stinv h b)

theorem initState_stinv : StInv initState :=
  ⟨by simp [initState], by simp [initState], Or.inr (by decide)⟩

/-- Every chapter of a finished conversion has nonempty blocks and a title
with non-blank trim. -/
theorem convert_chapters_inv (rawBlocks : List RawBlock) (options : ConvertOptions) :
    ∀ c ∈ (convertBlocksToNovel rawBlocks options).chapters,
      c.blocks ≠ [] ∧ jsTrim c.title ≠ "" := by
  intro c hc
  have h := @push_stinv options.language _
    (@foldl_stinv options.language rawBlocks initState initState_stinv)
  obtain ⟨h1, h2, _⟩ := h
  unfold convertBlocksToNovel at hc
  dsimp only at hc
  exact ⟨h1 c hc, h2 c hc⟩

/-- No line of the raw block is detected as a chapter or section heading. -/
def NoHeading (lang : Lang) : RawBlock → Prop
  | .text _ _ t => ∀ l ∈ (splitNlL t.data).map (fun x => (⟨trimL x⟩ : String)),
      detectChapter lang l = none ∧ detectSection lang l = none
  | .image _ _ _ _ => True

instance noHeadingDecidable (lang : Lang) (rb : RawBlock) :
    Decidable (NoHeading lang rb) :=
  match rb with
  | .text _ _ t => inferInstanceAs (Decidable (∀ l ∈ (splitNlL t.data).map
      (fun x => (⟨trimL x⟩ : String)),
      detectChapter lang l = none ∧ detectSection lang l = none))
  | .image _ _ _ _ => isTrue trivial

/-- The pre-first-heading invariant: no chapter has been pushed and the
in-progress title is still the initial `"Prologue"`. -/
def PreHead (st : ConvState) : Prop :=
  st.chapters = [] ∧ st.currentTitle = "Prologue"

theorem flush_prehead {lang : Lang} {st : ConvState} (h : PreHead st) :
    PreHead (flushPendingText lang st) := by
  obtain ⟨hc, ht, _, _⟩ := flushPendingText_chapters lang st
  exact ⟨hc.trans h.1, ht.trans h.2⟩

theorem procLines_prehead {lang : Lang} :
    ∀ (f : Nat) (lines : List String) (st : ConvState),
      (∀ l ∈ lines, detectChapter lang l = none ∧ detectSection lang l = none) →
      PreHead st → PreHead (procLines lang f st lines) := by
  intro f
  induction f with
  | zero => intro lines st _ h; simpa [procLines] using h
  | succ f ih =>
    intro lines st hl h
    cases lines with
    | nil => simpa [procLines] using h
    | cons line rest =>
      unfold procLines
      dsimp only
      split
      · exact ih rest st (fun l hm => hl l (List.mem_cons_of_mem _ hm)) h
      · rcases hchap : detectChapter lang line with _ | chap
        · rcases hsec : detectSection lang line with _ | sec
          · exact ih rest _ (fun l hm => hl l (List.mem_cons_of_mem _ hm)) ⟨h.1, h.2⟩
          · exact absurd hsec (by simp [(hl line (List.mem_cons_self _ _)).2])
        · exact absurd hchap (by simp [(hl line (List.mem_cons_self _ _)).1])

theorem procRawBlock_prehead {lang : Lang} {st : ConvState} {rb : RawBlock}
    (hrb : NoHeading lang rb) (h : PreHead st) : PreHead (procRawBlock lang st rb) := by
  cases rb with
  | text p o t => exact procLines_prehead _ _ _ hrb h
  | image p o du alt =>
    have hf := @flush_prehead lang _ h
    exact ⟨hf.1, hf.2⟩

theorem foldl_prehead {lang : Lang} :
    ∀ (blocks : List RawBlock) (st : ConvState),
      (∀ rb ∈ blocks, NoHeading lang rb) → PreHead st →
      PreHead (blocks.foldl (procRawBlock lang) st) := by
  intro blocks
  induction blocks with
  | nil => intro st _ h; exact h
  | cons b bs ih =>
    intro st hb h
    exact ih _ (fun rb hm => hb rb (List.mem_cons_of_mem _ hm))
      (procRawBlock_prehead (hb b (List.mem_cons_self _ _)) h)

end Converter

/-! ### C9 and C10 -/

/-- C9: for every input RawBlock sequence and options, every chapter in the
Document returned by `convertBlocksToNovel` contains at least one content
block — a chapter whose heading was detected but that accumulated no blocks
is never pushed into the output. -/
theorem C9_every_chapter_has_blocks (rawBlocks : List RawBlock)
    (options : ConvertOptions) :
    ∀ c ∈ (Converter.convertBlocksToNovel rawBlocks options).chapters,
      c.blocks ≠ [] :=
  fun c hc => (Converter.convert_chapters_inv rawBlocks options c hc).1

/-- Witness for C9 at a concrete conversion. -/
theorem C9_witness :
    ((Converter.convertBlocksToNovel [RawBlock.text 0 1 "Chapter 1\nHello."]
        ⟨"T", Lang.en, none, none, none⟩).chapters.headD
      ⟨"", 0, "", []⟩).blocks ≠ [] :=
  C9_every_chapter_has_blocks [RawBlock.text 0 1 "Chapter 1\nHello."]
    ⟨"T", Lang.en, none, none, none⟩ _ (by decide)

/-- C10: every chapter of the returned Document has a title whose trim is
non-blank (body text before any heading goes into a "Prologue"-titled
chapter, and an empty title at push time receives the `Chapitre <number>`
fallback), so the table of contents — chapters filtered to non-empty
titles — is exactly one entry per chapter, in chapter order. -/
theorem C10_titles_and_toc (rawBlocks : List RawBlock) (options : ConvertOptions) :
    (∀ c ∈ (Converter.convertBlocksToNovel rawBlocks options).chapters,
      jsTrim c.title ≠ "") ∧
    (Converter.convertBlocksToNovel rawBlocks options).toc =
      (Converter.convertBlocksToNovel rawBlocks options).chapters.map
        (fun c => TocItem.mk c.id c.title c.number) ∧
    ((∀ rb ∈ rawBlocks, Converter.NoHeading options.language rb) →
      (Converter.convertBlocksToNovel rawBlocks options).chapters.map Chapter.title = [] ∨
      (Converter.convertBlocksToNovel rawBlocks options).chapters.map Chapter.title =
        ["Prologue"]) := by
  refine ⟨fun c hc => (Converter.convert_chapters_inv rawBlocks options c hc).2, ?_, ?_⟩
  · show (Converter.convertBlocksToNovel rawBlocks options).toc = _
    unfold Converter.convertBlocksToNovel
    dsimp only
    rw [List.filter_eq_self.2]
    intro c hc
    have h2 := (Converter.convert_chapters_inv rawBlocks options c (by
      unfold Converter.convertBlocksToNovel
      dsimp only
      exact hc)).2
    simpa using jsLen_pos_iff.2 h2
  · intro hno
    have hpre := @Converter.foldl_prehead options.language rawBlocks
      Converter.initState hno ⟨rfl, rfl⟩
    unfold Converter.convertBlocksToNovel
    dsimp only
    set stf := rawBlocks.foldl (Converter.procRawBlock options.language)
      Converter.initState with hstf
    obtain ⟨hch, hti⟩ := hpre
    unfold Converter.pushCurrentChapter
    dsimp only
    obtain ⟨hfc, hft, _, _⟩ := Converter.flushPendingText_chapters options.language stf
    split
    · left
      rw [hfc, hch]
      rfl
    · right
      rw [hfc, hch, hft, hti]
      simp

/-! ### Segmenter step lemmas, C7 and C8 -/

namespace TextProcessor

open NovelPatternMatcher

/-- A dialogue-start line is never a scene-break line: its first character
is a configured marker, and no marker is a scene-break glyph. -/
theorem dialogue_not_scene {lang : Lang} {s : String}
    (h : isDialogueStart lang s = true) : isSceneBreak s = false := by
  unfold isDialogueStart at h
  dsimp only at h
  rcases ht : trimL s.data with _ | ⟨c, t0⟩
  · rw [ht] at h; simp at h
  · rw [ht] at h
    dsimp only at h
    rcases hf : (dialogueMarkers lang).find? (fun m => m = c) with _ | m
    · rw [hf] at h; simp at h
    · have hmc : m = c := by simpa using List.find?_some hf
      have hmem : m ∈ dialogueMarkers lang := List.mem_of_find?_eq_some hf
      subst hmc
      have hglyph : isSceneGlyph m = false := by
        rcases lang <;> fin_cases hmem <;> decide
      unfold isSceneBreak
      dsimp only
      rw [ht]
      dsimp only
      rw [hglyph]
      simp

/-- A line whose trim opens with a straight quote that appears fewer than
two times in it is not a dialogue start, in any language. -/
theorem isDialogueStart_single_quote {lang : Lang} {line : String} {t0 : List Char}
    (h : trimL line.data = '"' :: t0) (hcount : (trimL line.data).count '"' < 2) :
    isDialogueStart lang line = false := by
  unfold isDialogueStart
  dsimp only
  rw [h]
  rw [h] at hcount
  have hnot : ¬ (2 ≤ ('"' :: t0).count '"') := by omega
  rcases lang
  · have hf : List.find? (fun m => decide (m = '"')) (dialogueMarkers Lang.fr) =
        some '"' := by decide
    dsimp only
    rw [hf]
    dsimp only
    rw [if_neg (by simp)]
    exact decide_eq_false hnot
  · have hf : List.find? (fun m => decide (m = '"')) (dialogueMarkers Lang.en) =
        some '"' := by decide
    dsimp only
    rw [hf]
    dsimp only
    rw [if_neg (by simp)]
    exact decide_eq_false hnot
  · have hf : List.find? (fun m => decide (m = '"')) (dialogueMarkers Lang.ja) =
        none := by decide
    dsimp only
    rw [hf]

/-- A line whose trim opens with any configured marker other than the
straight quote is always a dialogue start. -/
theorem isDialogueStart_marker {lang : Lang} {line : String} {c : Char} {t0 : List Char}
    (h : trimL line.data = c :: t0) (hm : c ∈ dialogueMarkers lang) (hq : c ≠ '"') :
    isDialogueStart lang line = true := by
  unfold isDialogueStart
  dsimp only
  rw [h]
  dsimp only
  have hsome : ((dialogueMarkers lang).find? (fun m => m = c)).isSome :=
    List.find?_isSome.2 ⟨c, hm, by simp⟩
  rcases hf : (dialogueMarkers lang).find? (fun m => m = c) with _ | m
  · rw [hf] at hsome; simp at hsome
  · have hmc : m = c := by simpa using List.find?_some hf
    subst hmc
    dsimp only
    rw [if_pos hq]

theorem trimL_head_dropWhile {l : List Char} {c : Char} {t : List Char}
    (h : trimL l = c :: t) : ∃ t', l.dropWhile isJsWs = c :: t' := by
  have hpre := List.rdropWhile_prefix isJsWs (l := l.dropWhile isJsWs)
  unfold trimL at h
  rw [h] at hpre
  obtain ⟨s, hs⟩ := hpre
  exact ⟨t ++ s, hs.symm⟩

/-- The stray-quote cleaner strips exactly the first straight quote from a
line that is not recognised as dialogue. -/
theorem clean_single_quote {lang : Lang} {line : List Char} {t0 : List Char}
    (h : trimL line = '"' :: t0) (hcount : (trimL line).count '"' < 2) :
    cleanNonDialogueQuoteLine lang line = removeFirstQuote line := by
  unfold cleanNonDialogueQuoteLine
  obtain ⟨t', ht'⟩ := trimL_head_dropWhile h
  split
  · rw [@isDialogueStart_single_quote lang ⟨line⟩ t0 h hcount]
    simp
  · next hne =>
    exact absurd ht' (hne t')

/-- The narration branch of the segmenter loop: a line that is neither a
scene break nor a dialogue start, with the dialogue flag off, is appended
to the accumulator and flushed as a `<p>` paragraph on terminal
punctuation. -/
theorem segStep_narration {lang : Lang} (st : SegState) (line : List Char)
    (hd : isDialogueStart lang ⟨line⟩ = false) (hsc : isSceneBreak ⟨line⟩ = false)
    (hflag : st.inDialogue = false) :
    segStep lang st line =
      (if isSentenceEnd line then
        { st with
            current := [],
            blocks := st.blocks ++ [⟨PType.paragraph,
              paraHtml (st.current ++ (if st.current ≠ [] then ' ' :: line else line))⟩] }
      else
        { st with current :=
            st.current ++ (if st.current ≠ [] then ' ' :: line else line) }) := by
  unfold segStep
  rw [hsc, hd, hflag]
  simp

end TextProcessor

/-- C7: in the Segmenter, every dialogue-start line whose text ends (after
stripping trailing closing quotation glyphs) with sentence-terminal
punctuation (`.`, `!`, `?`, `...`, `。`, `！`, `？`) is flushed immediately
as a single dialogue fragment, with the dialogue flag reset. -/
theorem C7_dialogue_line_flushes_immediately (lang : Lang)
    (st : TextProcessor.SegState) (line : List Char)
    (hd : TextProcessor.isDialogueStart lang ⟨line⟩ = true)
    (hs : TextProcessor.isSentenceEnd line = true) :
    TextProcessor.segStep lang st line =
      { current := [], inDialogue := false,
        blocks := (st.blocks ++
          (if st.current ≠ [] then
            [TextProcessor.flushBlock st.inDialogue st.current] else [])) ++
          [⟨PType.dialogue, TextProcessor.quoteHtml line⟩] } := by
  have hsc := TextProcessor.dialogue_not_scene hd
  unfold TextProcessor.segStep
  rw [hsc, hd, hs]
  simp

/-- Witness for C7 at the line `“Stop!”` in English. -/
theorem C7_witness :
    TextProcessor.isDialogueStart Lang.en ⟨"“Stop!”".data⟩ = true ∧
    TextProcessor.isSentenceEnd "“Stop!”".data = true ∧
    TextProcessor.segStep Lang.en ⟨[], false, []⟩ "“Stop!”".data =
      { current := [], inDialogue := false,
        blocks := (([] : List PBlock) ++
          (if ([] : List Char) ≠ [] then
            [TextProcessor.flushBlock false []] else [])) ++
          [⟨PType.dialogue, TextProcessor.quoteHtml "“Stop!”".data⟩] } :=
  ⟨by decide, by decide,
    C7_dialogue_line_flushes_immediately Lang.en ⟨[], false, []⟩ "“Stop!”".data
      (by decide) (by decide)⟩

/-- C8 (amended): a line beginning with a straight double-quote that holds
fewer than two straight quotes is never classified as a dialogue start and
loses that stray quote; any other configured marker at the start of a line
always counts as a dialogue start; a cleaned line that no marker matches is
processed as narration (in French the stripped remainder can itself start
with a dash marker and be re-classified as dialogue). -/
theorem C8_quote_marker_classification (lang : Lang) :
    (∀ (line : String) (t0 : List Char), trimL line.data = '"' :: t0 →
      (trimL line.data).count '"' < 2 →
      TextProcessor.isDialogueStart lang line = false ∧
      TextProcessor.cleanNonDialogueQuoteLine lang line.data =
        TextProcessor.removeFirstQuote line.data) ∧
    (∀ (line : String) (c : Char) (t0 : List Char), trimL line.data = c :: t0 →
      c ∈ NovelPatternMatcher.dialogueMarkers lang → c ≠ '"' →
      TextProcessor.isDialogueStart lang line = true) ∧
    (∀ (st : TextProcessor.SegState) (line : List Char),
      TextProcessor.isDialogueStart lang ⟨line⟩ = false →
      TextProcessor.isSceneBreak ⟨line⟩ = false → st.inDialogue = false →
      TextProcessor.segStep lang st line =
        (if TextProcessor.isSentenceEnd line then
          { st with
              current := [],
              blocks := st.blocks ++ [⟨PType.paragraph, TextProcessor.paraHtml
                (st.current ++ (if st.current ≠ [] then ' ' :: line else line))⟩] }
        else
          { st with current :=
              st.current ++ (if st.current ≠ [] then ' ' :: line else line) })) :=
  ⟨fun line t0 h hc =>
    ⟨TextProcessor.isDialogueStart_single_quote h hc,
     TextProcessor.clean_single_quote h hc⟩,
   fun line c t0 h hm hq => TextProcessor.isDialogueStart_marker h hm hq,
   fun st line hd hsc hflag => TextProcessor.segStep_narration st line hd hsc hflag⟩

/-- Witness for C8 in English at the stray-quote line and the curly-quote
marker line. -/
theorem C8_witness :
    (TextProcessor.isDialogueStart Lang.en "\" Hearing the news, he paused." = false ∧
     TextProcessor.cleanNonDialogueQuoteLine Lang.en
        "\" Hearing the news, he paused.".data =
       TextProcessor.removeFirstQuote "\" Hearing the news, he paused.".data) ∧
    TextProcessor.isDialogueStart Lang.en "“Hello" = true :=
  ⟨(C8_quote_marker_classification Lang.en).1 "\" Hearing the news, he paused."
      " Hearing the news, he paused.".data (by decide) (by decide),
   (C8_quote_marker_classification Lang.en).2.1 "“Hello" '“' "Hello".data
      (by decide) (by decide) (by decide)⟩

/-- C8 counterexample: in French the line `"— Bonjour, dit-il.` begins with
a straight double-quote and holds only one straight quote, yet after the
stray quote is stripped the dash marker makes the Segmenter emit it as a
dialogue fragment, not narration. -/
theorem C8_counterexample :
    "\"— Bonjour, dit-il.".data.count '"' = 1 ∧
    "\"— Bonjour, dit-il.".data.head? = some '"' ∧
    TextProcessor.processContent Lang.fr "\"— Bonjour, dit-il." =
      [⟨PType.dialogue, "<blockquote>— Bonjour, dit-il.</blockquote>"⟩] :=
  ⟨by decide, by decide, by decide⟩

/-! ### C1 and C6 -/

/-- The two text RawBlocks of the C1 end-to-end example. -/
def c1Input : List RawBlock :=
  [ .text 0 1 "Chapter 1: Arrival\nThe sky was red.",
    .text 1 1 "\"Stop!\" she shouted.\n\"Why?\" he asked." ]

/-- English conversion options used by the concrete examples. -/
def enOpts : ConvertOptions := ⟨"T", Lang.en, none, none, none⟩

/-- C1 counterexample: on the example input the conversion yields one
chapter with number 1 but title `"Arrival"` (which does not contain
`"Chapter 1: Arrival"`), and all five produced blocks are paragraphs —
no dialogue block exists, since the straight-quote lines are split at every
quote and the stray quotes stripped as noise. -/
theorem C1_counterexample :
    (Converter.convertBlocksToNovel c1Input enOpts).chapters.map
        (fun c => (c.number, c.title, c.blocks.map NovelBlock.kind)) =
      [(1, "Arrival",
        [some PType.paragraph, some PType.paragraph, some PType.paragraph,
         some PType.paragraph, some PType.paragraph])] ∧
    ¬ ("Chapter 1: Arrival".data <:+: "Arrival".data) :=
  ⟨by decide, by decide⟩

/-- C1 (amended): the example conversion returns exactly one chapter,
number 1, title `"Arrival"` (the inline capture, used verbatim), whose
blocks are the five narration paragraphs `The sky was red.` / `Stop!` /
`she shouted.` / `Why?` / `he asked.`. -/
theorem C1_example_actual_output :
    Converter.convertBlocksToNovel c1Input enOpts =
      { metadata := ⟨"T", Lang.en, none, none, none⟩,
        toc := [⟨"chapter-1", "Arrival", 1⟩],
        chapters := [⟨"chapter-1", 1, "Arrival",
          [.content "b0" .paragraph "<p>The sky was red.</p>",
           .content "b1" .paragraph "<p>Stop!</p>",
           .content "b2" .paragraph "<p>she shouted.</p>",
           .content "b3" .paragraph "<p>Why?</p>",
           .content "b4" .paragraph "<p>he asked.</p>"]⟩] } := by
  decide

/-- C6 counterexample: a run of four scene-break glyphs between two plain
sentences leaves the fourth glyph merged into the following narration
paragraph (`<p>◊ Two.</p>` instead of `<p>Two.</p>`), so the run is not
fully isolated into the scene-break fragment. -/
theorem C6_counterexample :
    (TextProcessor.processContent Lang.en "One.\n◊ ◊ ◊ ◊\nTwo.").map PBlock.html =
      ["<p>One.</p>", "<p class=\"scene-break\">◊ ◊ ◊</p>", "<p>◊ Two.</p>"] ∧
    "<p>◊ Two.</p>" ≠ "<p>Two.</p>" :=
  ⟨by decide, by decide⟩

/-- C6 (amended): scene-break isolation is context-sensitive, not
universal.  (1) A run of exactly three identical glyphs separated by single
spaces on a line of its own between two plain sentences yields exactly one
scene-break fragment, never merged with the adjacent narration — for every
configured glyph and language.  (2) A run of exactly three glyphs whose
interior spacing spans a line break is not isolated at all: the triple
matcher accepts the newline as interior `\s*`, the rewritten fragment keeps
it, each of its lines fails the per-line `{3,}` scene test, and everything
is emitted as narration.  (3) A four-glyph run spanning a line break
likewise yields zero scene-break fragments, the glyphs merging into the
adjacent prose. -/
theorem C6_scene_break_isolation :
    (∀ (lang : Lang) (g : Char), g ∈ ['◊', '◇', '◆', '✦', '*'] →
      TextProcessor.processContent lang
          ⟨"One.\n".data ++ [g, ' ', g, ' ', g] ++ "\nTwo.".data⟩ =
        [⟨.paragraph, "<p>One.</p>"⟩,
         ⟨.paragraph, ⟨"<p class=\"scene-break\">".data ++ [g, ' ', g, ' ', g] ++ "</p>".data⟩⟩,
         ⟨.paragraph, "<p>Two.</p>"⟩]) ∧
    (TextProcessor.processContent Lang.en "One.\n◊\n◊ ◊\nTwo.").map
        (fun p => (p.type, p.html)) =
      [(PType.paragraph, "<p>One.</p>"), (PType.paragraph, "<p>◊ ◊ ◊</p>"),
       (PType.paragraph, "<p>Two.</p>")] ∧
    (TextProcessor.processContent Lang.en "One.\n◊\n◊ ◊ ◊\nTwo.").map
        (fun p => (p.type, p.html)) =
      [(PType.paragraph, "<p>One.</p>"),
       (PType.paragraph, "<p>◊ ◊ ◊ ◊ Two.</p>")] := by
  refine ⟨?_, by decide, by decide⟩
  intro lang g hg
  rcases lang <;> fin_cases hg <;> decide

/-- Witness for C6's single-line exact-triple conjunct at the lozenge
glyph in English. -/
theorem C6_witness :
    '◊' ∈ ['◊', '◇', '◆', '✦', '*'] ∧
    TextProcessor.processContent Lang.en
        ⟨"One.\n".data ++ ['◊', ' ', '◊', ' ', '◊'] ++ "\nTwo.".data⟩ =
      [⟨.paragraph, "<p>One.</p>"⟩,
       ⟨.paragraph, ⟨"<p class=\"scene-break\">".data ++ ['◊', ' ', '◊', ' ', '◊'] ++ "</p>".data⟩⟩,
       ⟨.paragraph, "<p>Two.</p>"⟩] :=
  ⟨by decide, C6_scene_break_isolation.1 Lang.en '◊' (by decide)⟩

/-! ### The table-driven CRC32 equals the bitwise reflected CRC32 -/

namespace Pdf

theorem xor_shiftRight (x y n : Nat) :
    (x ^^^ y) >>> n = (x >>> n) ^^^ (y >>> n) := by
  apply Nat.eq_of_testBit_eq
  intro i
  simp [Nat.testBit_shiftRight, Nat.testBit_xor]

theorem xor_mod_two (x y : Nat) : (x ^^^ y) % 2 = (x % 2) ^^^ (y % 2) := by
  rw [← Nat.and_one_is_mod, ← Nat.and_one_is_mod, ← Nat.and_one_is_mod,
    Nat.and_xor_distrib_right]

theorem nat_xor_eq (a b : Nat) : Nat.xor a b = a ^^^ b := rfl

/-- One CRC generator step is linear over xor (the step is a GF(2)
polynomial operation). -/
theorem crcByteStep_xor (x y : Nat) :
    crcByteStep (x ^^^ y) = crcByteStep x ^^^ crcByteStep y := by
  unfold crcByteStep
  simp only [nat_xor_eq]
  have lcomm : ∀ a b c : Nat, a ^^^ (b ^^^ c) = b ^^^ (a ^^^ c) := by
    intro a b c
    rw [← Nat.xor_assoc, Nat.xor_comm a b, Nat.xor_assoc]
  rcases Nat.mod_two_eq_zero_or_one x with hx | hx <;>
    rcases Nat.mod_two_eq_zero_or_one y with hy | hy <;>
      simp only [xor_mod_two, hx, hy, xor_shiftRight, Nat.xor_zero, Nat.zero_xor,
        if_true, if_false, reduceIte] <;>
      simp [Nat.xor_assoc, Nat.xor_comm, lcomm, Nat.xor_self,
        Nat.zero_xor, Nat.xor_zero]

theorem iterate_crcByteStep_xor (n x y : Nat) :
    crcByteStep^[n] (x ^^^ y) = crcByteStep^[n] x ^^^ crcByteStep^[n] y := by
  induction n generalizing x y with
  | zero => simp
  | succ k ih =>
    rw [Function.iterate_succ_apply, Function.iterate_succ_apply,
      Function.iterate_succ_apply, crcByteStep_xor, ih]

theorem hi_lo_xor (d : Nat) : ((d >>> 8) <<< 8) ^^^ (d % 256) = d := by
  have h256 : (256 : Nat) = 2 ^ 8 := rfl
  apply Nat.eq_of_testBit_eq
  intro i
  rw [h256]
  by_cases hi : i < 8
  · have h8 : ¬ (8 ≤ i) := by omega
    simp only [Nat.testBit_xor, Nat.testBit_shiftLeft, Nat.testBit_mod_two_pow,
      h8, hi, decide_True, decide_False, Bool.false_and, Bool.true_and,
      Bool.false_xor]
  · have h8 : 8 ≤ i := Nat.not_lt.1 hi
    simp only [Nat.testBit_xor, Nat.testBit_shiftLeft, Nat.testBit_shiftRight,
      Nat.testBit_mod_two_pow, h8, hi, decide_True, decide_False,
      Bool.true_and, Bool.false_and, Bool.xor_false]
    congr 1
    omega

theorem crcByteStep_shiftLeft (q k : Nat) :
    crcByteStep (q <<< (k + 1)) = q <<< k := by
  unfold crcByteStep
  have hpar : (q <<< (k + 1)) % 2 = 0 := by
    rw [Nat.shiftLeft_eq, pow_succ, ← Nat.mul_assoc]
    exact Nat.mul_mod_left _ 2
  rw [if_neg (by omega)]
  rw [Nat.shiftLeft_eq, Nat.shiftLeft_eq, Nat.shiftRight_eq_div_pow, pow_succ,
    ← Nat.mul_assoc, pow_one]
  exact Nat.mul_div_cancel _ (by omega)

theorem iterate_crcByteStep_shiftLeft (q : Nat) :
    ∀ k, crcByteStep^[k] (q <<< k) = q := by
  intro k
  induction k with
  | zero => simp
  | succ n ih =>
    rw [Function.iterate_succ_apply, crcByteStep_shiftLeft, ih]

theorem crcByteStep8_decomp (d : Nat) :
    crcByteStep^[8] d = (d >>> 8) ^^^ crcByteStep^[8] (d % 256) := by
  conv_lhs => rw [← hi_lo_xor d]
  rw [iterate_crcByteStep_xor, iterate_crcByteStep_shiftLeft (d >>> 8) 8]

theorem crcTable_getD {j : Nat} (hj : j < 256) :
    crcTable.getD j 0 = crcByteStep^[8] j := by
  unfold crcTable
  rw [List.getD_eq_getElem?_getD, List.getElem?_map, List.getElem?_range hj]
  rfl

/-- One byte of the table-driven CRC loop equals one byte of the bitwise
reflected CRC. -/
theorem crc_step_eq {crc b : Nat} (hb : b < 256) :
    Nat.xor (crc >>> 8) (crcTable.getD (Nat.xor crc b % 256) 0) =
      crcByteStep^[8] (Nat.xor crc b) := by
  rw [crcTable_getD (Nat.mod_lt _ (by omega))]
  rw [crcByteStep8_decomp (Nat.xor crc b)]
  congr 1
  simp only [nat_xor_eq]
  rw [xor_shiftRight]
  have hb8 : b >>> 8 = 0 := by
    rw [Nat.shiftRight_eq_div_pow]
    omega
  rw [hb8, Nat.xor_zero]

/-- The source's table-driven `crc32` computes the bitwise reflected
CRC-32 with polynomial `0xEDB88320` on byte inputs. -/
theorem crc32_eq_spec {buf : List Nat} (hb : ∀ v ∈ buf, v < 256) :
    crc32 buf = PngSpec.crc32Spec buf := by
  unfold crc32 PngSpec.crc32Spec
  congr 1
  have hfold : ∀ (l : List Nat) (init : Nat), (∀ v ∈ l, v < 256) →
      l.foldl (fun crc b =>
        Nat.xor (crc >>> 8) (crcTable.getD (Nat.xor crc b % 256) 0)) init =
      l.foldl (fun crc b => crcByteStep^[8] (Nat.xor crc b)) init := by
    intro l
    induction l with
    | nil => intro init _; rfl
    | cons v vs ih =>
      intro init hv
      simp only [List.foldl_cons]
      rw [crc_step_eq (hv v (List.mem_cons_self _ _)), ih _
        (fun x hx => hv x (List.mem_cons_of_mem _ hx))]
  exact hfold buf _ hb

theorem be32_mem_lt {n v : Nat} (hv : v ∈ be32 n) : v < 256 := by
  unfold be32 at hv
  simp only [List.mem_cons, List.not_mem_nil, or_false] at hv
  rcases hv with hv | hv | hv | hv <;> subst hv <;>
    exact Nat.mod_lt _ (by omega)

/-- A source chunk with byte-valued data equals the spec's chunk with the
bitwise CRC. -/
theorem mkChunk_eq_spec {t : String} {d : List Nat}
    (hd : ∀ v ∈ asciiBytes t ++ d, v < 256) :
    mkChunk t d = PngSpec.chunkSpec t d := by
  unfold mkChunk PngSpec.chunkSpec
  rw [crc32_eq_spec hd]

end Pdf

/-! ### The encoder's raw scanline buffer equals the spec's scanline stream -/

namespace Pdf

theorem componentsOf_pos {w h len : Nat} (hpos : 0 < w * h) :
    componentsOf w h len = PngSpec.componentsSpec w h len := by
  unfold componentsOf PngSpec.componentsSpec
  rw [if_pos hpos]

theorem pixelRGBA_eq_spec (c : Nat) (data : List Nat) (pix : Nat) :
    pixelRGBA c data (pix * c) = PngSpec.pixelSpec c data pix := rfl

theorem rowFrom_eq_spec (c w : Nat) (data : List Nat) (y : Nat) :
    ∀ r x, rowFrom c w data y r x =
      ((List.range r).map (fun j => x + j)).flatMap
        (fun t => PngSpec.pixelSpec c data (y * w + t)) := by
  intro r
  induction r with
  | zero => intro x; rfl
  | succ n ih =>
    intro x
    have hstep : rowFrom c w data y (n + 1) x =
        pixelRGBA c data ((y * w + x) * c) ++ rowFrom c w data y n (x + 1) := rfl
    rw [hstep, ih (x + 1), List.range_succ_eq_map, List.map_cons,
      List.map_map]
    simp only [List.flatMap_cons]
    have hfe : ((fun j => x + j) ∘ Nat.succ) = (fun j => (x + 1) + j) :=
      funext fun j => by simp only [Function.comp_apply]; omega
    rw [hfe]
    simp only [Nat.add_zero]
    rw [pixelRGBA_eq_spec c data (y * w + x)]

theorem rowBytes_eq_spec (c w : Nat) (data : List Nat) (y : Nat) :
    rowBytes c w data y =
      (List.range w).flatMap (fun x => PngSpec.pixelSpec c data (y * w + x)) := by
  unfold rowBytes
  rw [rowFrom_eq_spec]
  have hfe : (fun j : Nat => 0 + j) = id := funext fun j => by simp
  rw [hfe, List.map_id]

theorem rawFrom_eq_spec (c w : Nat) (data : List Nat) :
    ∀ r y, rawFrom c w data r y =
      ((List.range r).map (fun j => y + j)).flatMap
        (fun t => 0 :: (List.range w).flatMap
          (fun x => PngSpec.pixelSpec c data (t * w + x))) := by
  intro r
  induction r with
  | zero => intro y; rfl
  | succ n ih =>
    intro y
    have hstep : rawFrom c w data (n + 1) y =
        0 :: rowBytes c w data y ++ rawFrom c w data n (y + 1) := rfl
    rw [hstep, ih (y + 1), List.range_succ_eq_map, List.map_cons,
      List.map_map]
    simp only [List.flatMap_cons]
    have hfe : ((fun j => y + j) ∘ Nat.succ) = (fun j => (y + 1) + j) :=
      funext fun j => by simp only [Function.comp_apply]; omega
    rw [hfe]
    simp only [Nat.add_zero]
    rw [rowBytes_eq_spec]

theorem buildRaw_eq_spec (w h c : Nat) (data : List Nat) :
    buildRaw w h c data = PngSpec.scanlinesSpec w h c data := by
  unfold buildRaw PngSpec.scanlinesSpec
  rw [rawFrom_eq_spec]
  have hfe : (fun j : Nat => 0 + j) = id := funext fun j => by simp
  rw [hfe, List.map_id]

theorem encodeRaw_eq_spec {w h : Nat} (data : List Nat) (hpos : 0 < w * h) :
    encodeRaw w h data =
      PngSpec.scanlinesSpec w h (PngSpec.componentsSpec w h data.length) data := by
  unfold encodeRaw
  rw [componentsOf_pos hpos, buildRaw_eq_spec]

theorem ihdr_payload_bytes_lt (w h : Nat) :
    ∀ v ∈ asciiBytes "IHDR" ++ (be32 w ++ be32 h ++ [8, 6, 0, 0, 0]),
      v < 256 := by
  intro v hv
  rcases List.mem_append.1 hv with h1 | h2
  · have hih : asciiBytes "IHDR" = [73, 72, 68, 82] := rfl
    rw [hih] at h1
    fin_cases h1 <;> omega
  · rcases List.mem_append.1 h2 with h3 | h4
    · rcases List.mem_append.1 h3 with h5 | h6
      · exact be32_mem_lt h5
      · exact be32_mem_lt h6
    · fin_cases h4 <;> omega

end Pdf

/-! ### Decoding the encoder's output: chunk walk and scanline unfiltering -/

theorem be32_length (n : Nat) : (Pdf.be32 n).length = 4 := rfl

theorem readBe32_be32 {n : Nat} (hn : n < 2 ^ 32) :
    PngSpec.readBe32 (Pdf.be32 n) = n := by
  show ((n / 2 ^ 24 % 256 * 256 + n / 2 ^ 16 % 256) * 256 + n / 2 ^ 8 % 256) * 256 +
      n % 256 = n
  have h24 : (2 : Nat) ^ 24 = 16777216 := by norm_num
  have h16 : (2 : Nat) ^ 16 = 65536 := by norm_num
  have h8 : (2 : Nat) ^ 8 = 256 := by norm_num
  have h32 : (2 : Nat) ^ 32 = 4294967296 := by norm_num
  rw [h24, h16, h8]
  rw [h32] at hn
  omega

theorem parseChunks_nil : ∀ f, PngSpec.parseChunks f [] = [] := by
  intro f
  cases f <;> rfl

theorem parseChunks_mkChunk (f : Nat) (t : String) (d rest : List Nat)
    (ht : (Pdf.asciiBytes t).length = 4) (hd : d.length < 2 ^ 32) :
    PngSpec.parseChunks (f + 1) (Pdf.mkChunk t d ++ rest) =
      (Pdf.asciiBytes t, d) :: PngSpec.parseChunks f rest := by
  unfold Pdf.mkChunk
  simp only [List.append_assoc]
  set bytes := Pdf.be32 d.length ++ (Pdf.asciiBytes t ++ (d ++
    (Pdf.be32 (Pdf.crc32 (Pdf.asciiBytes t ++ d)) ++ rest))) with hbytes
  have htake4 : bytes.take 4 = Pdf.be32 d.length := List.take_left' (be32_length _)
  have hdrop4 : bytes.drop 4 = Pdf.asciiBytes t ++ (d ++
      (Pdf.be32 (Pdf.crc32 (Pdf.asciiBytes t ++ d)) ++ rest)) :=
    List.drop_left' (be32_length _)
  have h44 : List.drop 4 (List.drop 4 bytes) = List.drop 8 bytes := by
    rw [List.drop_drop]
  have hdrop8 : bytes.drop 8 = d ++
      (Pdf.be32 (Pdf.crc32 (Pdf.asciiBytes t ++ d)) ++ rest) := by
    rw [← h44, hdrop4, List.drop_left' ht]
  have hlen8 : ¬ bytes.length < 8 := by
    rw [hbytes]
    simp only [List.length_append, be32_length, ht]
    omega
  have e1 : List.drop d.length (List.drop 8 bytes) =
      List.drop (8 + d.length) bytes := by
    rw [List.drop_drop]
  have e2 : List.drop 4 (List.drop (8 + d.length) bytes) =
      List.drop (8 + d.length + 4) bytes := by
    rw [List.drop_drop]
  conv_lhs => rw [PngSpec.parseChunks]
  rw [if_neg hlen8]
  dsimp only
  rw [htake4, readBe32_be32 hd, hdrop4, List.take_left' ht, hdrop8,
    List.take_left]
  rw [← e2, ← e1, hdrop8, List.drop_left, List.drop_left' (be32_length _)]

theorem pixelRGBA_length (c : Nat) (data : List Nat) (s : Nat) :
    (Pdf.pixelRGBA c data s).length = 4 := by
  unfold Pdf.pixelRGBA
  by_cases h4 : c = 4
  · rw [if_pos h4]; rfl
  · rw [if_neg h4]
    by_cases h3 : c = 3
    · rw [if_pos h3]; rfl
    · rw [if_neg h3]
      by_cases h1 : c = 1
      · rw [if_pos h1]; rfl
      · rw [if_neg h1]; rfl

theorem rowFrom_length (c w : Nat) (data : List Nat) (y : Nat) :
    ∀ r x, (Pdf.rowFrom c w data y r x).length = r * 4 := by
  intro r
  induction r with
  | zero => intro x; rfl
  | succ n ih =>
    intro x
    have hstep : Pdf.rowFrom c w data y (n + 1) x =
        Pdf.pixelRGBA c data ((y * w + x) * c) ++ Pdf.rowFrom c w data y n (x + 1) :=
      rfl
    rw [hstep, List.length_append, pixelRGBA_length, ih]
    omega

theorem rowBytes_length (c w : Nat) (data : List Nat) (y : Nat) :
    (Pdf.rowBytes c w data y).length = w * 4 := by
  unfold Pdf.rowBytes
  rw [rowFrom_length]

theorem take_four_getD {l : List Nat} {k : Nat} (hk : k + 4 ≤ l.length) :
    (l.drop k).take 4 =
      [l.getD k 0, l.getD (k + 1) 0, l.getD (k + 2) 0, l.getD (k + 3) 0] := by
  have h0 : k < l.length := by omega
  have h1 : k + 1 < l.length := by omega
  have h2 : k + 2 < l.length := by omega
  have h3 : k + 3 < l.length := by omega
  rw [List.drop_eq_getElem_cons h0, List.drop_eq_getElem_cons h1,
    List.drop_eq_getElem_cons h2, List.drop_eq_getElem_cons h3]
  simp only [List.take_succ_cons, List.take_zero]
  rw [List.getD_eq_getElem l 0 h0, List.getD_eq_getElem l 0 h1,
    List.getD_eq_getElem l 0 h2, List.getD_eq_getElem l 0 h3]

theorem getD_mod256 {l : List Nat} (hb : ∀ v ∈ l, v < 256) {i : Nat}
    (hi : i < l.length) : l.getD i 0 % 256 = l.getD i 0 := by
  rw [List.getD_eq_getElem l 0 hi]
  exact Nat.mod_eq_of_lt (hb _ (List.getElem_mem hi))

theorem pixelSpec4_slice {data : List Nat} (hb : ∀ v ∈ data, v < 256) {pix : Nat}
    (hr : pix * 4 + 4 ≤ data.length) :
    PngSpec.pixelSpec 4 data pix = (data.drop (pix * 4)).take 4 := by
  rw [take_four_getD hr]
  unfold PngSpec.pixelSpec
  rw [if_pos rfl]
  unfold Pdf.byteOf
  rw [getD_mod256 hb (by omega), getD_mod256 hb (by omega),
    getD_mod256 hb (by omega), getD_mod256 hb (by omega)]

theorem pixRun (data : List Nat) (hb : ∀ v ∈ data, v < 256) :
    ∀ m s, (s + m) * 4 ≤ data.length →
      (List.range m).flatMap (fun x => PngSpec.pixelSpec 4 data (s + x)) =
        (data.drop (s * 4)).take (m * 4) := by
  intro m
  induction m with
  | zero => intro s _; simp
  | succ n ih =>
    intro s hle
    rw [List.range_succ, List.flatMap_append, ih s (by omega)]
    simp only [List.flatMap_cons, List.flatMap_nil, List.append_nil]
    rw [pixelSpec4_slice hb (by omega)]
    have h1 : (n + 1) * 4 = n * 4 + 4 := by ring
    rw [h1, List.take_add]
    have h2 : List.drop (n * 4) (List.drop (s * 4) data) =
        data.drop ((s + n) * 4) := by
      rw [List.drop_drop]
      congr 1
      ring
    rw [h2]

theorem rowBytes_slice {w : Nat} {data : List Nat} (hb : ∀ v ∈ data, v < 256)
    {y : Nat} (hy : (y * w + w) * 4 ≤ data.length) :
    Pdf.rowBytes 4 w data y = (data.drop ((y * w) * 4)).take (w * 4) := by
  rw [Pdf.rowBytes_eq_spec]
  exact pixRun data hb w (y * w) hy

theorem rowsConcat {w : Nat} (data : List Nat) (hb : ∀ v ∈ data, v < 256) :
    ∀ r, (r * w) * 4 ≤ data.length →
      (List.range r).flatMap (fun y => Pdf.rowBytes 4 w data y) =
        data.take ((r * w) * 4) := by
  intro r
  induction r with
  | zero => intro _; simp
  | succ n ih =>
    intro hr
    have hmono : n * w ≤ (n + 1) * w := Nat.mul_le_mul_right w (by omega)
    rw [List.range_succ, List.flatMap_append, ih (by omega)]
    simp only [List.flatMap_cons, List.flatMap_nil, List.append_nil]
    have hexp : (n + 1) * w = n * w + w := by ring
    have h3 : (n * w + w) * 4 ≤ data.length := by rw [← hexp]; exact hr
    rw [rowBytes_slice hb h3, hexp]
    have h4 : (n * w + w) * 4 = (n * w) * 4 + w * 4 := by ring
    rw [h4, List.take_add]

theorem unfilterRows_rawFrom (w : Nat) (data : List Nat) :
    ∀ r y, PngSpec.unfilterRows r (w * 4 + 1) (Pdf.rawFrom 4 w data r y) =
      (List.range r).flatMap (fun j => Pdf.rowBytes 4 w data (y + j)) := by
  intro r
  induction r with
  | zero => intro y; rfl
  | succ n ih =>
    intro y
    have hstep : Pdf.rawFrom 4 w data (n + 1) y =
        0 :: Pdf.rowBytes 4 w data y ++ Pdf.rawFrom 4 w data n (y + 1) := rfl
    have hustep : ∀ bytes, PngSpec.unfilterRows (n + 1) (w * 4 + 1) bytes =
        (bytes.take (w * 4 + 1)).drop 1 ++
          PngSpec.unfilterRows n (w * 4 + 1) (bytes.drop (w * 4 + 1)) :=
      fun bytes => rfl
    rw [hstep, hustep]
    have hlen0 : (0 :: Pdf.rowBytes 4 w data y).length = w * 4 + 1 := by
      rw [List.length_cons, rowBytes_length]
    rw [List.take_left' hlen0, List.drop_left' hlen0]
    simp only [List.drop_succ_cons, List.drop_zero]
    rw [ih (y + 1), List.range_succ_eq_map, List.flatMap_cons, List.flatMap_map]
    have hfe : ∀ a : Nat, Pdf.rowBytes 4 w data (y + (a + 1)) =
        Pdf.rowBytes 4 w data ((y + 1) + a) := by
      intro a
      congr 1
      omega
    simp only [Nat.succ_eq_add_one, hfe, Nat.add_zero]

theorem unfilterRows_buildRaw (w h : Nat) (data : List Nat) :
    PngSpec.unfilterRows h (w * 4 + 1) (Pdf.buildRaw w h 4 data) =
      (List.range h).flatMap (fun y => Pdf.rowBytes 4 w data y) := by
  unfold Pdf.buildRaw
  rw [unfilterRows_rawFrom]
  simp only [Nat.zero_add]

theorem unfilter_encodeRaw {w h : Nat} {data : List Nat}
    (hb : ∀ v ∈ data, v < 256) (hpos : 0 < w * h)
    (hlen : data.length = w * h * 4) :
    PngSpec.unfilterRows h (w * 4 + 1) (Pdf.encodeRaw w h data) = data := by
  have hc : Pdf.componentsOf w h data.length = 4 := by
    unfold Pdf.componentsOf
    rw [if_pos hpos, hlen, Nat.mul_div_cancel_left 4 hpos]
    decide
  unfold Pdf.encodeRaw
  rw [hc, unfilterRows_buildRaw]
  have ht : (h * w) * 4 = data.length := by rw [hlen]; ring
  rw [rowsConcat data hb h (by omega), ht, List.take_length]

theorem encode_ok (deflate : List Nat → List Nat) (width height : Int)
    (data : List Nat) (hw : 1 ≤ width) (hh : 1 ≤ height)
    (hw32 : width < 2 ^ 32) (hh32 : height < 2 ^ 32)
    (hdl : (deflate (Pdf.encodeRaw width.toNat height.toNat data)).length < 2 ^ 32) :
    Pdf.encodeRGBAtoPNGBytes deflate width height data =
      .ok (Pdf.pngSignature ++
        Pdf.mkChunk "IHDR"
          (Pdf.be32 width.toNat ++ Pdf.be32 height.toNat ++ [8, 6, 0, 0, 0]) ++
        Pdf.mkChunk "IDAT" (deflate (Pdf.encodeRaw width.toNat height.toNat data)) ++
        Pdf.mkChunk "IEND" []) := by
  unfold Pdf.encodeRGBAtoPNGBytes
  have hprod : (0 : Int) < (width * 4 + 1) * height := mul_pos (by omega) (by omega)
  rw [if_neg (by omega)]
  rw [if_neg (by simp only [Bool.or_eq_true, decide_eq_true_eq]; omega)]
  dsimp only
  rw [if_neg (by omega)]

/-! ### C4 -/

/-- C4 counterexample: the encoder performs no dimension or buffer-length
validation — width 0 and an empty pixel buffer both produce a PNG byte
stream successfully instead of failing. -/
theorem C4_counterexample :
    (Pdf.encodeRGBAtoPNGBytes (fun l => l) 0 1 []).isOk = true ∧
    (Pdf.encodeRGBAtoPNGBytes (fun l => l) 1 1 []).isOk = true :=
  ⟨by decide, by decide⟩

/-- C4 (amended): there is no `EncodingError`; encoding fails (with a JS
range error from `Buffer.alloc` or `writeUInt32BE`) exactly when a
dimension is negative or a 32-bit field overflows — width 0, height 0 and
too-short buffers all succeed, producing a degenerate or zero-padded PNG.
The caller wraps each encode in `try/catch` and on failure (or a
too-small image area) skips that single image and continues, surfacing no
error. -/
theorem C4_error_iff_and_caller_skips (deflate : List Nat → List Nat) :
    (∀ (w h : Int) (data : List Nat),
      (∃ e, Pdf.encodeRGBAtoPNGBytes deflate w h data = .error e) ↔
        (w < 0 ∨ h < 0 ∨ (2 ^ 32 : Int) ≤ w ∨ (2 ^ 32 : Int) ≤ h ∨
         (2 ^ 32 : Nat) ≤ (deflate (Pdf.encodeRaw w.toNat h.toNat data)).length)) ∧
    (∀ (pageIndex onPage total : Nat) (bad : Pdf.ExtractedImage)
        (rest : List Pdf.ExtractedImage),
      ((∃ e, Pdf.encodeRGBAtoPNG deflate bad.width bad.height bad.data = .error e) ∨
        bad.width * bad.height < Pdf.minImageArea) →
      Pdf.collectPageImages deflate pageIndex onPage total (bad :: rest) =
        Pdf.collectPageImages deflate pageIndex onPage total rest) := by
  constructor
  · intro w h data
    unfold Pdf.encodeRGBAtoPNGBytes
    by_cases hA : (w * 4 + 1) * h < 0
    · rw [if_pos hA]
      constructor
      · intro _
        by_contra hall
        push_neg at hall
        obtain ⟨hw, hh, _, _, _⟩ := hall
        have h1 : (0 : Int) ≤ w * 4 + 1 := by omega
        have h2 : (0 : Int) ≤ h := by omega
        have := mul_nonneg h1 h2
        omega
      · intro _
        exact ⟨_, rfl⟩
    · rw [if_neg hA]
      by_cases hB : (w < 0 ∨ (2 ^ 32 : Int) ≤ w ∨ h < 0 ∨ (2 ^ 32 : Int) ≤ h)
      · rw [if_pos (by simp only [Bool.or_eq_true, decide_eq_true_eq]; tauto)]
        constructor
        · intro _
          tauto
        · intro _
          exact ⟨_, rfl⟩
      · rw [if_neg (by simp only [Bool.or_eq_true, decide_eq_true_eq]; tauto)]
        dsimp only
        by_cases hC : (2 ^ 32 : Nat) ≤ (deflate (Pdf.encodeRaw w.toNat h.toNat data)).length
        · rw [if_pos (by simpa using hC)]
          constructor
          · intro _
            tauto
          · intro _
            exact ⟨_, rfl⟩
        · rw [if_neg (by simpa using hC)]
          constructor
          · intro ⟨e, he⟩
            exact absurd he (by simp)
          · intro hd
            push_neg at hB
            obtain ⟨hw0, hw32, hh0, hh32⟩ := hB
            rcases hd with hcase | hcase | hcase | hcase | hcase
            · omega
            · omega
            · omega
            · omega
            · exact absurd hcase hC
  · intro pageIndex onPage total bad rest hskip
    by_cases h1 : Pdf.maxImagesPerPage ≤ onPage
    · cases rest with
      | nil => simp [Pdf.collectPageImages, h1]
      | cons r rs => simp [Pdf.collectPageImages, h1]
    · by_cases h2 : Pdf.maxImagesTotal ≤ total
      · cases rest with
        | nil => simp [Pdf.collectPageImages, h1, h2]
        | cons r rs => simp [Pdf.collectPageImages, h1, h2]
      · by_cases h3 : bad.width * bad.height < Pdf.minImageArea
        · conv_lhs => rw [Pdf.collectPageImages]
          simp only [if_neg h1, if_neg h2, if_pos h3]
        · rcases hskip with ⟨e, he⟩ | harea
          · conv_lhs => rw [Pdf.collectPageImages]
            simp only [if_neg h1, if_neg h2, if_neg h3, he]
          · exact absurd harea h3

/-- Witness for C4: a negative width makes the encoder fail, and the
per-page collection loop skips exactly that image. -/
theorem C4_witness :
    (∃ e, Pdf.encodeRGBAtoPNGBytes (fun l => l) (-1) 1 [] = .error e) ∧
    Pdf.collectPageImages (fun l => l) 0 0 0 [⟨-1, -300000, []⟩] =
      Pdf.collectPageImages (fun l => l) 0 0 0 [] :=
  ⟨((C4_error_iff_and_caller_skips (fun l => l)).1 (-1) 1 []).mpr (Or.inl (by decide)),
   (C4_error_iff_and_caller_skips (fun l => l)).2 0 0 0 ⟨-1, -300000, []⟩ []
     (Or.inl ⟨"writeUInt32BE: value out of range", rfl⟩)⟩

/-- C3: on every valid input — positive in-range dimensions, and a deflate
whose output is a byte list short enough for the chunk-length field — the
encoder's byte stream is exactly the spec's PNG: signature, an `IHDR` with
width, height, bit depth 8, color type 6 and zero
compression/filter/interlace bytes, one `IDAT` holding the deflated
scanline stream (each scanline prefixed with filter byte 0), and an empty
`IEND`, every chunk with a big-endian length and a reflected-polynomial
`0xEDB88320` CRC32 over type + data, with the component count inferred as
`max(1, floor(len / (w*h)))` and pixels expanded per the 1/3/4/other
branches. -/
theorem C3_encoder_output_matches_spec (deflate : List Nat → List Nat)
    (width height : Int) (data : List Nat)
    (hw : 1 ≤ width) (hh : 1 ≤ height)
    (hw32 : width < 2 ^ 32) (hh32 : height < 2 ^ 32)
    (hdb : ∀ v ∈ deflate (Pdf.encodeRaw width.toNat height.toNat data), v < 256)
    (hdl : (deflate (Pdf.encodeRaw width.toNat height.toNat data)).length < 2 ^ 32) :
    Pdf.encodeRGBAtoPNGBytes deflate width height data =
      .ok (PngSpec.pngSpec deflate width.toNat height.toNat data) := by
  have hpos : 0 < width.toNat * height.toNat :=
    Nat.mul_pos (by omega) (by omega)
  unfold Pdf.encodeRGBAtoPNGBytes
  have hprod : (0 : Int) < (width * 4 + 1) * height := mul_pos (by omega) (by omega)
  rw [if_neg (by omega)]
  rw [if_neg (by simp only [Bool.or_eq_true, decide_eq_true_eq]; omega)]
  dsimp only
  rw [if_neg (by omega)]
  unfold PngSpec.pngSpec
  dsimp only
  rw [← Pdf.encodeRaw_eq_spec data hpos]
  rw [Pdf.mkChunk_eq_spec (Pdf.ihdr_payload_bytes_lt width.toNat height.toNat)]
  rw [Pdf.mkChunk_eq_spec (d := deflate (Pdf.encodeRaw width.toNat height.toNat data))
    (by
      intro v hv
      rcases List.mem_append.1 hv with h1 | h2
      · have hia : Pdf.asciiBytes "IDAT" = [73, 68, 65, 84] := rfl
        rw [hia] at h1
        fin_cases h1 <;> omega
      · exact hdb v h2)]
  rw [Pdf.mkChunk_eq_spec (t := "IEND") (d := []) (by decide)]

/-- Counterexample to C5: after the chapter heading `"Chapter 3:"` — which
ends with a trailing separator and carries no inline title — the converter
performs no lookahead at all: the following line `"The Letter"` passes
`isLikelyChapterTitleLine`, yet the chapter title stays the raw line
`"Chapter 3:"` and `"The Letter"` is emitted as body content instead of
being merged into the heading. -/
theorem C5_counterexample :
    (Converter.convertBlocksToNovel
        [RawBlock.text 0 1 "Chapter 3:\nThe Letter\nIt was raining."]
        enOpts).chapters.map (fun c => (c.title, c.number)) =
      [("Chapter 3:", 3)] ∧
    NovelPatternMatcher.isLikelyChapterTitleLine "The Letter" = true ∧
    (Converter.convertBlocksToNovel
        [RawBlock.text 0 1 "Chapter 3:\nThe Letter\nIt was raining."]
        enOpts).chapters.map (fun c => c.blocks) =
      [[NovelBlock.content "b0" PType.paragraph
        "<p>The Letter It was raining.</p>"]] :=
  ⟨by decide, by decide, by decide⟩

/-- C5 (amended): when the converter detects a chapter-heading line it
pushes the current chapter and continues on exactly the remaining lines —
the new title is the inline title verbatim when the match carries one and
the raw line otherwise, and no lookahead or continuation merging happens
for chapter headings (the `isHeaderContinuation`/`isLikelyChapterTitleLine`
lookahead exists only on the section branch): the step is the same for
every tail `rest`. -/
theorem C5_chapter_heading_step (lang : Lang) (f : Nat)
    (st : Converter.ConvState) (line : String) (rest : List String)
    (chap : ChapterMatch) (hne : line ≠ "")
    (hc : NovelPatternMatcher.detectChapter lang line = some chap) :
    Converter.procLines lang (f + 1) st (line :: rest) =
      Converter.procLines lang f
        { Converter.pushCurrentChapter lang st with
          currentTitle := if chap.title = "" then line else chap.title,
          currentNumber := chap.number } rest := by
  conv_lhs => rw [Converter.procLines]
  rw [if_neg hne, hc]

/-- Witness for C5's amended step at a concrete heading with a
title-shaped follow-up line. -/
theorem C5_witness :
    "Chapter 3:" ≠ "" ∧
    NovelPatternMatcher.detectChapter Lang.en "Chapter 3:" =
      some ⟨some 3, ""⟩ ∧
    Converter.procLines Lang.en 2 Converter.initState
        ["Chapter 3:", "The Letter"] =
      Converter.procLines Lang.en 1
        { Converter.pushCurrentChapter Lang.en Converter.initState with
          currentTitle := "Chapter 3:", currentNumber := some 3 }
        ["The Letter"] :=
  ⟨by decide, by decide,
   C5_chapter_heading_step Lang.en 1 Converter.initState "Chapter 3:"
     ["The Letter"] ⟨some 3, ""⟩ (by decide) (by decide)⟩

/-- C2: PNG round-trip — for every width ≥ 1 and height ≥ 1 within the
32-bit chunk fields, every RGBA buffer of byte values with length
`width*height*4`, and any zlib pair that inverts on the encoder's scanline
stream and deflates it to a byte list short enough for the length field,
the encoder succeeds and a standard PNG decoder (signature check, chunk
walk, zlib-inflate of the single `IDAT`, filter-byte removal per scanline)
reproduces the exact input pixel bytes. -/
theorem C2_png_roundtrip (deflate inflate : List Nat → List Nat)
    (width height : Int) (data : List Nat)
    (hw : 1 ≤ width) (hh : 1 ≤ height)
    (hw32 : width < 2 ^ 32) (hh32 : height < 2 ^ 32)
    (hlen : data.length = width.toNat * height.toNat * 4)
    (hb : ∀ v ∈ data, v < 256)
    (hinf : inflate (deflate (Pdf.encodeRaw width.toNat height.toNat data)) =
      Pdf.encodeRaw width.toNat height.toNat data)
    (hdl : (deflate (Pdf.encodeRaw width.toNat height.toNat data)).length < 2 ^ 32) :
    ∃ png, Pdf.encodeRGBAtoPNGBytes deflate width height data = Except.ok png ∧
      PngSpec.decodePNG inflate png = some data := by
  refine ⟨_, encode_ok deflate width height data hw hh hw32 hh32 hdl, ?_⟩
  set w := width.toNat with hwdef
  set h := height.toNat with hhdef
  set ihdrD := Pdf.be32 w ++ Pdf.be32 h ++ [8, 6, 0, 0, 0] with hihdr
  set idatD := deflate (Pdf.encodeRaw w h data) with hidat
  simp only [List.append_assoc]
  set png := Pdf.pngSignature ++ (Pdf.mkChunk "IHDR" ihdrD ++
    (Pdf.mkChunk "IDAT" idatD ++ Pdf.mkChunk "IEND" [])) with hpng
  have hsig : (Pdf.pngSignature).length = 8 := rfl
  have htake8 : png.take 8 = Pdf.pngSignature := by
    rw [hpng]
    exact List.take_left' hsig
  have hdrop8 : png.drop 8 = Pdf.mkChunk "IHDR" ihdrD ++
      (Pdf.mkChunk "IDAT" idatD ++ Pdf.mkChunk "IEND" []) := by
    rw [hpng]
    exact List.drop_left' hsig
  have h8le : 8 ≤ png.length := by
    rw [hpng, List.length_append, hsig]
    omega
  obtain ⟨f, hf⟩ : ∃ f, png.length = f + 1 + 1 + 1 := ⟨png.length - 3, by omega⟩
  have hihdrLen : ihdrD.length < 2 ^ 32 := by
    have h13 : ihdrD.length = 13 := by rw [hihdr]; rfl
    rw [h13]
    norm_num
  unfold PngSpec.decodePNG
  rw [if_neg (by rw [htake8]; exact fun hne => hne rfl)]
  dsimp only
  rw [hdrop8, hf]
  rw [parseChunks_mkChunk (f + 1 + 1) "IHDR" ihdrD _ rfl hihdrLen]
  rw [parseChunks_mkChunk (f + 1) "IDAT" idatD _ rfl hdl]
  rw [show Pdf.mkChunk "IEND" [] = Pdf.mkChunk "IEND" [] ++ []
    from (List.append_nil _).symm]
  rw [parseChunks_mkChunk f "IEND" [] [] rfl (by decide)]
  rw [parseChunks_nil f]
  rw [List.find?_cons_of_pos _ (by rfl)]
  rw [List.find?_cons_of_neg _ (by intro hc; cases hc)]
  rw [List.find?_cons_of_pos _ (by rfl)]
  dsimp only
  have ht4 : ihdrD.take 4 = Pdf.be32 w := by
    rw [hihdr, List.append_assoc]
    exact List.take_left' (be32_length w)
  have hd4 : (ihdrD.drop 4).take 4 = Pdf.be32 h := by
    rw [hihdr, List.append_assoc, List.drop_left' (be32_length w)]
    exact List.take_left' (be32_length h)
  rw [ht4, hd4, readBe32_be32 (show w < 2 ^ 32 by omega),
    readBe32_be32 (show h < 2 ^ 32 by omega), hinf]
  rw [unfilter_encodeRaw hb (Nat.mul_pos (by omega) (by omega)) hlen]

/-- Witness for C2: identity deflate and inflate on a 1x1 RGBA image. -/
theorem C2_witness : ∃ png,
    Pdf.encodeRGBAtoPNGBytes (fun l => l) 1 1 [1, 2, 3, 4] = Except.ok png ∧
    PngSpec.decodePNG (fun l => l) png = some [1, 2, 3, 4] :=
  C2_png_roundtrip (fun l => l) (fun l => l) 1 1 [1, 2, 3, 4]
    (by decide) (by decide) (by decide) (by decide) (by decide) (by decide)
    rfl (by decide)

/-- Witness for C3: identity deflate on a 1x1 RGBA image. -/
theorem C3_witness :
    Pdf.encodeRGBAtoPNGBytes (fun l => l) 1 1 [1, 2, 3, 4] =
      .ok (PngSpec.pngSpec (fun l => l) 1 1 [1, 2, 3, 4]) :=
  C3_encoder_output_matches_spec (fun l => l) 1 1 [1, 2, 3, 4]
    (by decide) (by decide) (by decide) (by decide) (by decide) (by decide)

/-- Witness for C10's no-heading conjunct at a concrete conversion. -/
theorem C10_witness :
    (Converter.convertBlocksToNovel [RawBlock.text 0 1 "Hello there.\nBye."]
        ⟨"T", Lang.en, none, none, none⟩).chapters.map Chapter.title = [] ∨
    (Converter.convertBlocksToNovel [RawBlock.text 0 1 "Hello there.\nBye."]
        ⟨"T", Lang.en, none, none, none⟩).chapters.map Chapter.title = ["Prologue"] :=
  (C10_titles_and_toc _ _).2.2 (by decide)

end Seamless
